import Mathlib

/-!
Verification of the GreyRock CRE AppFolio listings scraper
(src/scraper/scrape.mjs, which contains two versions of the script:
v1.0 and v2.0, concatenated).

Shallow embedding conventions:
* JS strings are modelled as `List Char` (the scraped pages are BMP text,
  so `charCodeAt` coincides with `Char.toNat`).
* JS numbers are modelled as `ℚ`; `NaN` and `null` are both modelled as
  `none` of `Option ℚ` (`NaN` and `null` are interchangeable for every
  operation this program performs on them: both are falsy, both compare
  unequal to `0` with `!==`, and both serialize to `null`).
* The jsdom DOM is modelled by structures that record the results of the
  fixed `querySelector`/`querySelectorAll` calls the program performs
  (text content of the body, of each heading, attribute values of images,
  and so on); the extractors and parsers themselves are translated from
  the source.
* The JavaScript regular expressions of the source are translated into a
  small backtracking engine (`RE`/`mmatch`) whose outcome ordering is
  exactly JS semantics: leftmost match position wins, alternatives are
  tried left to right, greedy quantifiers try longest first, lazy
  quantifiers shortest first.  Every quantifier in the source applies to
  a single character class, which the `RE` type hard-wires.
-/

/-! ## JS string primitives -/

/-- The whitespace class used by JS `\s`, `String.trim` and friends
(ASCII whitespace plus no-break space; the other exotic Unicode space
code points do not occur in this development). -/
def isSpaceJS (c : Char) : Bool :=
  c == ' ' || c == '\t' || c == '\n' || c == '\r' || c == '\x0b' || c == '\x0c' || c == '\u00A0'

/-- JS `String.prototype.trim`. -/
def jsTrim (s : List Char) : List Char :=
  ((s.dropWhile isSpaceJS).reverse.dropWhile isSpaceJS).reverse

/-- Does `hay` start with `pat` (helper for `jsIncludes`). -/
def startsWithStr : List Char → List Char → Bool
  | _, [] => true
  | [], _ :: _ => false
  | c :: cs, d :: ds => c == d && startsWithStr cs ds

/-- JS `String.prototype.includes`. -/
def jsIncludes : List Char → List Char → Bool
  | [], needle => needle.isEmpty
  | c :: t, needle => startsWithStr (c :: t) needle || jsIncludes t needle

/-- Boolean string equality (used where JS compares strings with `===`). -/
def eqStr (a b : List Char) : Bool := a == b

/-- Membership of a string in a list of strings (JS `Array.includes` /
`Set.has`). -/
def memStr (u : List Char) (l : List (List Char)) : Bool :=
  l.any (fun v => eqStr v u)

/-- First-seen-order deduplication with an explicit `seen` accumulator:
the semantics of iterating a JS `Set` built by insertion
(`[...new Set(xs)]`). -/
def dedupFS (seen : List (List Char)) : List (List Char) → List (List Char)
  | [] => []
  | x :: xs => if memStr x seen then dedupFS seen xs else x :: dedupFS (x :: seen) xs

/-- Index of the first occurrence of a string in a list (`Array.indexOf`). -/
def firstIdx (u : List Char) : List (List Char) → Nat
  | [] => 0
  | x :: xs => if eqStr x u then 0 else firstIdx u xs + 1

/-- JS `str.replace(/\s+/g, ' ')`. -/
def collapseWs : List Char → List Char
  | [] => []
  | c :: t => if isSpaceJS c then ' ' :: collapseWs (t.dropWhile isSpaceJS) else c :: collapseWs t
termination_by l => l.length
decreasing_by
  · exact Nat.lt_succ_of_le (List.dropWhile_sublist _).length_le
  · exact Nat.lt_succ_self _

/-- JS `str.replace(/[$,]/g, '')`. -/
def removeDollarComma (s : List Char) : List Char :=
  s.filter (fun c => !(c == '$' || c == ','))

/-- JS `str.replace(/,/g, '')`. -/
def removeComma (s : List Char) : List Char :=
  s.filter (fun c => !(c == ','))

/-! ## JS number primitives -/

def isDigitJS (c : Char) : Bool := 48 ≤ c.toNat && c.toNat ≤ 57

def digitVal (c : Char) : ℚ := ((c.toNat - 48 : Nat) : ℚ)

def digitsVal (l : List Char) : ℚ := l.foldl (fun acc c => acc * 10 + digitVal c) 0

def fracVal (l : List Char) : ℚ := l.foldr (fun c acc => (digitVal c + acc) / 10) 0

/-- JS `parseFloat`, restricted to the shapes that occur in this program:
an optional run of digits, an optional dot followed by more digits
(captures of `[\d,.]`-style classes after comma removal).  `NaN` is
modelled as `none`. -/
def jsParseFloat (s : List Char) : Option ℚ :=
  let ds := s.takeWhile isDigitJS
  let rest := s.drop ds.length
  match rest with
  | '.' :: r2 =>
      let fs := r2.takeWhile isDigitJS
      if ds.isEmpty && fs.isEmpty then none else some (digitsVal ds + fracVal fs)
  | _ => if ds.isEmpty then none else some (digitsVal ds)

/-- JS `parseInt`, restricted likewise (leading decimal digits).  `NaN`
is modelled as `none`. -/
def jsParseInt (s : List Char) : Option ℚ :=
  let ds := s.takeWhile isDigitJS
  if ds.isEmpty then none else some (digitsVal ds)

/-- JS `x.toFixed(2)` followed by `parseFloat`, for the nonnegative
values this program produces: round to two decimals, half away from
zero. -/
def jsToFixed2 (q : ℚ) : ℚ := ((Int.floor (q * 100 + 1 / 2) : ℤ) : ℚ) / 100

/-- Truthiness of a JS string-or-null value (`null` and the empty string
are falsy). -/
def truthyStr : Option (List Char) → Bool
  | some (_ :: _) => true
  | _ => false

/-- Truthiness of a JS number-or-null value (`null`, `0` and `NaN` are
falsy; `NaN` is modelled as `none`). -/
def truthyNum : Option ℚ → Bool
  | some v => decide (v ≠ 0)
  | none => false

/-- JS `a || b` on string-or-null attribute values. -/
def jsAttrOr (a b : Option (List Char)) : Option (List Char) :=
  if truthyStr a then a else b

/-- Unwrap a string-or-null value (only consulted behind truthiness
guards, where JS would not see `null`). -/
def optStr : Option (List Char) → List Char
  | some l => l
  | none => []

/-- JS `a || b` on regex-match results (`null` is falsy, every match
object is truthy). -/
def orElseOpt {α : Type} : Option α → Option α → Option α
  | some a, _ => some a
  | none, b => b

/-! ## A small backtracking regex engine (JS semantics)

Every quantifier in the source's patterns ranges over a single character
class, so the engine only provides class-level quantifiers; this makes
the matcher structurally recursive. -/

/-- Regular expressions as used by the source.  Quantifiers apply to a
character class `p`; `grp` is a numbered capture group; `wb` is `\b`;
`eos` is `$` (no multiline flag is ever set). -/
inductive RE where
  | eps
  | cls (p : Char → Bool)
  | starCls (p : Char → Bool)
  | plusCls (p : Char → Bool)
  | lazyPlusCls (p : Char → Bool)
  | repCls (p : Char → Bool) (lo hi : Nat)
  | seq (a b : RE)
  | alt (a b : RE)
  | opt (a : RE)
  | grp (i : Nat) (a : RE)
  | wb
  | eos

/-- One partial-match outcome: the character just before the remaining
input (for `\b`), the remaining input, and the captures made so far. -/
structure MOut where
  pc : Option Char
  rest : List Char
  caps : List (Nat × List Char)
  deriving Repr

def isWordChar (c : Char) : Bool :=
  (65 ≤ c.toNat && c.toNat ≤ 90) || (97 ≤ c.toNat && c.toNat ≤ 122) || isDigitJS c || c == '_'

/-- Length of the maximal run of class characters at the front. -/
def clsRun (p : Char → Bool) (s : List Char) : Nat := (s.takeWhile p).length

/-- The last character of `consumed`, else the previous context char. -/
def pcAfter (pc : Option Char) (consumed : List Char) : Option Char :=
  match consumed.getLast? with
  | some c => some c
  | none => pc

/-- The outcome that consumes exactly `k` class characters. -/
def kOut (pc : Option Char) (s : List Char) (caps : List (Nat × List Char)) (k : Nat) : MOut :=
  ⟨pcAfter pc (s.take k), s.drop k, caps⟩

/-- All partial matches of `re` against `s`, in JS backtracking priority
order (first element is what the JS engine commits to). -/
def mmatch : RE → Option Char → List Char → List (Nat × List Char) → List MOut
  | .eps, pc, s, caps => [⟨pc, s, caps⟩]
  | .cls p, _pc, s, caps =>
      match s with
      | c :: t => if p c then [⟨some c, t, caps⟩] else []
      | [] => []
  | .starCls p, pc, s, caps =>
      ((List.range (clsRun p s + 1)).reverse).map (kOut pc s caps)
  | .plusCls p, pc, s, caps =>
      (((List.range (clsRun p s)).map (fun k => k + 1)).reverse).map (kOut pc s caps)
  | .lazyPlusCls p, pc, s, caps =>
      ((List.range (clsRun p s)).map (fun k => k + 1)).map (kOut pc s caps)
  | .repCls p lo hi, pc, s, caps =>
      let r := min (clsRun p s) hi
      if lo ≤ r then
        (((List.range (r + 1 - lo)).map (fun k => k + lo)).reverse).map (kOut pc s caps)
      else []
  | .seq a b, pc, s, caps =>
      (mmatch a pc s caps).flatMap (fun o => mmatch b o.pc o.rest o.caps)
  | .alt a b, pc, s, caps => mmatch a pc s caps ++ mmatch b pc s caps
  | .opt a, pc, s, caps => mmatch a pc s caps ++ [⟨pc, s, caps⟩]
  | .grp i a, pc, s, caps =>
      (mmatch a pc s caps).map
        (fun o => ⟨o.pc, o.rest, (i, s.take (s.length - o.rest.length)) :: o.caps⟩)
  | .wb, pc, s, caps =>
      let before := match pc with | some c => isWordChar c | none => false
      let after := match s with | c :: _ => isWordChar c | [] => false
      if before != after then [⟨pc, s, caps⟩] else []
  | .eos, _pc, s, caps =>
      match s with
      | [] => [⟨none, [], caps⟩]
      | _ :: _ => []

/-- A committed match: the full matched text (`match[0]`) and the
captures. -/
structure ExecRes where
  m0 : List Char
  caps : List (Nat × List Char)
  deriving Repr

/-- Try to match at the current position only. -/
def tryAt (re : RE) (pc : Option Char) (s : List Char) : Option ExecRes :=
  match (mmatch re pc s []).head? with
  | some o => some ⟨s.take (s.length - o.rest.length), o.caps⟩
  | none => none

/-- Scan positions left to right (JS `String.match` without `g`). -/
def execAux (re : RE) : Option Char → List Char → Option ExecRes
  | pc, [] => tryAt re pc []
  | pc, c :: t =>
      match tryAt re pc (c :: t) with
      | some r => some r
      | none => execAux re (some c) t

/-- JS `s.match(re)`, as an option. -/
def reExec (re : RE) (s : List Char) : Option ExecRes := execAux re none s

/-- JS `re.test(s)`. -/
def reTest (re : RE) (s : List Char) : Bool := (reExec re s).isSome

/-- JS `s.match(re)` for a `^`-anchored pattern: position 0 only. -/
def reExec0 (re : RE) (s : List Char) : Option ExecRes := tryAt re none s

/-- JS `re.test(s)` for a `^`-anchored pattern. -/
def reTest0 (re : RE) (s : List Char) : Bool := (reExec0 re s).isSome

/-- JS `match[i]` for a capture group (groups in these patterns always
participate when the match succeeds). -/
def capGet (r : ExecRes) (i : Nat) : List Char :=
  match r.caps.lookup i with
  | some l => l
  | none => []

/-- A case-sensitive literal character. -/
def chCS (c : Char) : RE := .cls (fun x => x == c)

/-- A case-insensitive literal character (the `i` flag). -/
def chCI (c : Char) : RE := .cls (fun x => x == c.toLower || x == c.toUpper)

/-- A case-sensitive literal string. -/
def strCS (s : List Char) : RE := s.foldr (fun c r => .seq (chCS c) r) .eps

/-- A case-insensitive literal string. -/
def strCI (s : List Char) : RE := s.foldr (fun c r => .seq (chCI c) r) .eps

/-- Concatenation of a list of patterns. -/
def catR (l : List RE) : RE := l.foldr .seq .eps

/-- String literal to char list. -/
def L (s : String) : List Char := s.toList

/-! ## Character classes appearing in the source's patterns -/

def isDigitComma (c : Char) : Bool := isDigitJS c || c == ','

def isDigitDot (c : Char) : Bool := isDigitJS c || c == '.'

def isDigitCommaDot (c : Char) : Bool := isDigitJS c || c == ',' || c == '.'

def isUpperAZ (c : Char) : Bool := 65 ≤ c.toNat && c.toNat ≤ 90

def isLowerAZ (c : Char) : Bool := 97 ≤ c.toNat && c.toNat ≤ 122

def isAlphaAZ (c : Char) : Bool := isUpperAZ c || isLowerAZ c

def isAlphaSpace (c : Char) : Bool := isAlphaAZ c || isSpaceJS c

/-- The class `[A-Za-z0-9\s.,#-]` of the address pattern. -/
def isAddrChar (c : Char) : Bool :=
  isAlphaAZ c || isDigitJS c || isSpaceJS c || c == '.' || c == ',' || c == '#' || c == '-'

/-- The class `[a-f0-9-]` of the listing-UUID pattern. -/
def isUuidChar (c : Char) : Bool :=
  isDigitJS c || (97 ≤ c.toNat && c.toNat ≤ 102) || c == '-'

/-- JS `.` without the `s` flag: anything but a line terminator. -/
def isDotAny (c : Char) : Bool :=
  !(c == '\n' || c == '\r' || c == '\u2028' || c == '\u2029')

/-- The class `[^\n]`. -/
def isNotNL (c : Char) : Bool := !(c == '\n')

/-! ## The patterns of the source -/

/-- Substring used by the selector `a[href*="/listings/detail/"]`. -/
def detailNeedle : List Char := L (r"/listings/detail/")

/-- `/\/listings\/detail\/([a-f0-9-]+)/` (both versions). -/
def uuidRe : RE := .seq (strCS detailNeedle) (.grp 1 (.plusCls isUuidChar))

/-- Body of the address pattern's capture group. -/
def addrBody : RE :=
  catR [.plusCls isDigitJS, .plusCls isSpaceJS, .plusCls isAddrChar,
    chCS ',', .starCls isSpaceJS, .plusCls isAlphaSpace,
    chCS ',', .starCls isSpaceJS, .cls isUpperAZ, .cls isUpperAZ,
    .starCls isSpaceJS, .repCls isDigitJS 5 5]

/-- `/(\d+\s+[A-Za-z0-9\s.,#-]+,\s*[A-Za-z\s]+,\s*[A-Z]{2}\s*\d{5})/` (both versions). -/
def addressRe : RE := .grp 1 addrBody

/-- `/,\s*([A-Za-z\s]+),\s*[A-Z]{2}/` (both versions, applied to the address). -/
def cityRe : RE :=
  catR [chCS ',', .starCls isSpaceJS, .grp 1 (.plusCls isAlphaSpace),
    chCS ',', .starCls isSpaceJS, .cls isUpperAZ, .cls isUpperAZ]

/-- `/([\d,]+)\s*(?:SF|sq\s*ft|square\s*feet)/i` (v1 sqft; v2 sqft fallback). -/
def sqftTextRe : RE :=
  catR [.grp 1 (.plusCls isDigitComma), .starCls isSpaceJS,
    .alt (strCI (L (r"SF")))
      (.alt (catR [strCI (L (r"sq")), .starCls isSpaceJS, strCI (L (r"ft"))])
            (catR [strCI (L (r"square")), .starCls isSpaceJS, strCI (L (r"feet"))]))]

/-- `/\$[\d,]+(?:\.\d{2})?/` (v1 rent). -/
def rentReV1 : RE :=
  catR [chCS '$', .plusCls isDigitComma, .opt (catR [chCS '.', .cls isDigitJS, .cls isDigitJS])]

/-- `/^(View|Apply|Map|Details)/i` (v1 title boilerplate filter; anchored). -/
def titleBoilerReV1 : RE :=
  .grp 1 (.alt (strCI (L (r"View")))
    (.alt (strCI (L (r"Apply"))) (.alt (strCI (L (r"Map"))) (strCI (L (r"Details"))))))

/-- `/[A-Z][a-z].{50,500}/` (v1 description fallback). -/
def descReV1 : RE := catR [.cls isUpperAZ, .cls isLowerAZ, .repCls isDotAny 50 500]

/-- `/available\s*now/i` (v1 availability). -/
def availNowReV1 : RE :=
  catR [strCI (L (r"available")), .starCls isSpaceJS, strCI (L (r"now"))]

/-- `/available\s+(\w+\s+\d{1,2},?\s*\d{4}|\w+\s+\d{4})/i` (v1 availability date). -/
def availDateBodyV1 : RE :=
  .alt
    (catR [.plusCls isWordChar, .plusCls isSpaceJS, .repCls isDigitJS 1 2,
      .opt (chCS ','), .starCls isSpaceJS, .repCls isDigitJS 4 4])
    (catR [.plusCls isWordChar, .plusCls isSpaceJS, .repCls isDigitJS 4 4])

def availDateReV1 : RE :=
  catR [strCI (L (r"available")), .plusCls isSpaceJS, .grp 1 availDateBodyV1]

/-- `/commercial\s*type:\s*(\w+)/i` (v1 type pattern 1). -/
def commercialTypeReV1 : RE :=
  catR [strCI (L (r"commercial")), .starCls isSpaceJS, strCI (L (r"type:")),
    .starCls isSpaceJS, .grp 1 (.plusCls isWordChar)]

/-- `/lease\s*type:\s*([A-Za-z\s]+?)(?:\s*Available|\s*$)/i` (v1 type pattern 2). -/
def leaseTypeReV1 : RE :=
  catR [strCI (L (r"lease")), .starCls isSpaceJS, strCI (L (r"type:")),
    .starCls isSpaceJS, .grp 1 (.lazyPlusCls isAlphaSpace),
    .alt (catR [.starCls isSpaceJS, strCI (L (r"Available"))]) (.seq (.starCls isSpaceJS) .eos)]

/-- `/\b(office|retail|industrial|warehouse|mixed[- ]use|medical|flex)\b/i` (v1 type pattern 3). -/
def vocabReV1 : RE :=
  catR [.wb, .grp 1 (.alt (strCI (L (r"office")))
    (.alt (strCI (L (r"retail")))
    (.alt (strCI (L (r"industrial")))
    (.alt (strCI (L (r"warehouse")))
    (.alt (catR [strCI (L (r"mixed")), .cls (fun c => c == '-' || c == ' '), strCI (L (r"use"))])
    (.alt (strCI (L (r"medical"))) (strCI (L (r"flex"))))))))), .wb]

/-- `/\$([\d.]+)\s*\/(?:yr|mo|sf)/i` (v1 rent per SF). -/
def rentSFReV1 : RE :=
  catR [chCS '$', .grp 1 (.plusCls isDigitDot), .starCls isSpaceJS, chCS '/',
    .alt (strCI (L (r"yr"))) (.alt (strCI (L (r"mo"))) (strCI (L (r"sf"))))]

/-- `/(?:RENT|Rent)\s*\$?([\d,]+(?:\.\d{2})?)/` (v2 rent; case sensitive). -/
def rentReV2 : RE :=
  catR [.alt (strCS (L (r"RENT"))) (strCS (L (r"Rent"))), .starCls isSpaceJS,
    .opt (chCS '$'),
    .grp 1 (.seq (.plusCls isDigitComma)
      (.opt (catR [chCS '.', .cls isDigitJS, .cls isDigitJS])))]

/-- `/(?:SQUARE FEET|Square Feet|Sq\.?\s*Ft\.?)\s*([\d,]+)/i` (v2 sqft, labelled). -/
def sqftReV2 : RE :=
  catR [.alt (strCI (L (r"SQUARE FEET")))
      (.alt (strCI (L (r"Square Feet")))
            (catR [strCI (L (r"Sq")), .opt (chCS '.'), .starCls isSpaceJS,
              strCI (L (r"Ft")), .opt (chCS '.')])),
    .starCls isSpaceJS, .grp 1 (.plusCls isDigitComma)]

/-- `/(?:RENT\s*\/\s*SF|Rent\s*\/\s*SF)\s*\$?([\d,.]+)\s*\/yr/i` (v2 rent per SF, labelled). -/
def rentSFReV2a : RE :=
  catR [.alt (catR [strCI (L (r"RENT")), .starCls isSpaceJS, chCS '/', .starCls isSpaceJS,
        strCI (L (r"SF"))])
      (catR [strCI (L (r"Rent")), .starCls isSpaceJS, chCS '/', .starCls isSpaceJS,
        strCI (L (r"SF"))]),
    .starCls isSpaceJS, .opt (chCS '$'), .grp 1 (.plusCls isDigitCommaDot),
    .starCls isSpaceJS, chCS '/', strCI (L (r"yr"))]

/-- `/\$([\d,.]+)\s*\/(?:yr|sf)/i` (v2 rent per SF, fallback). -/
def rentSFReV2b : RE :=
  catR [chCS '$', .grp 1 (.plusCls isDigitCommaDot), .starCls isSpaceJS, chCS '/',
    .alt (strCI (L (r"yr"))) (strCI (L (r"sf")))]

/-- The `(?:AVAILABLE|Available)` label of the v2 availability patterns. -/
def availLabelV2 : RE := .alt (strCI (L (r"AVAILABLE"))) (strCI (L (r"Available")))

/-- `/(?:AVAILABLE|Available)\s+(\d{1,2}\/\d{1,2}\/\d{2,4})/i` (v2 availability, numeric date). -/
def availBodyV2a : RE :=
  catR [.repCls isDigitJS 1 2, chCS '/', .repCls isDigitJS 1 2, chCS '/', .repCls isDigitJS 2 4]

def availReV2a : RE :=
  catR [availLabelV2, .plusCls isSpaceJS, .grp 1 availBodyV2a]

/-- `/(?:AVAILABLE|Available)\s+(Now)/i` (v2 availability, immediate). -/
def availBodyV2b : RE := strCI (L (r"Now"))

def availReV2b : RE :=
  catR [availLabelV2, .plusCls isSpaceJS, .grp 1 availBodyV2b]

/-- `/(?:AVAILABLE|Available)\s+(\w+\s+\d{1,2},?\s*\d{4})/i` (v2 availability, worded date). -/
def availBodyV2c : RE :=
  catR [.plusCls isWordChar, .plusCls isSpaceJS, .repCls isDigitJS 1 2, .opt (chCS ','),
    .starCls isSpaceJS, .repCls isDigitJS 4 4]

def availReV2c : RE :=
  catR [availLabelV2, .plusCls isSpaceJS, .grp 1 availBodyV2c]

/-- `/Commercial\s*Type:\s*(\w+)/i` (v2 commercial type). -/
def commercialTypeReV2 : RE :=
  catR [strCI (L (r"Commercial")), .starCls isSpaceJS, strCI (L (r"Type:")),
    .starCls isSpaceJS, .grp 1 (.plusCls isWordChar)]

/-- `/Lease\s*Type:\s*(\w+)/i` (v2 lease type). -/
def leaseTypeReV2 : RE :=
  catR [strCI (L (r"Lease")), .starCls isSpaceJS, strCI (L (r"Type:")),
    .starCls isSpaceJS, .grp 1 (.plusCls isWordChar)]

/-- `/Utilities\s*Included:\s*([^\n]+)/i` (v2 utilities). -/
def utilReV2 : RE :=
  catR [strCI (L (r"Utilities")), .starCls isSpaceJS, strCI (L (r"Included:")),
    .starCls isSpaceJS, .grp 1 (.plusCls isNotNL)]

/-- `/^(Current|Rental|Apply)/i` (v2 title boilerplate filter; anchored). -/
def titleBoilerReV2 : RE :=
  .grp 1 (.alt (strCI (L (r"Current"))) (.alt (strCI (L (r"Rental"))) (strCI (L (r"Apply")))))

/-- `/now/i` (v2 status test). -/
def nowReCI : RE := strCI (L (r"now"))

/-! ## Records -/

/-- The listing record assembled by v1's `extractListingData`. -/
structure ListingV1 where
  id : List Char
  title : List Char
  address : Option (List Char)
  city : Option (List Char)
  type : List Char
  rent : Option ℚ
  sqft : Option ℚ
  rentPerSF : Option ℚ
  description : List Char
  available : List Char
  status : List Char
  imageUrl : Option (List Char)
  detailUrl : List Char
  applyUrl : List Char
  deriving DecidableEq, Repr

/-- The listing record assembled by v2's `parseDetailPage`.  `lat`/`lng`
are `none` until the geocoding enrichment of `main` assigns them
(`JSON.stringify` omits the keys while they are unassigned). -/
structure ListingV2 where
  id : List Char
  title : List Char
  address : Option (List Char)
  city : Option (List Char)
  type : List Char
  leaseType : Option (List Char)
  rent : Option ℚ
  sqft : Option ℚ
  rentPerSF : Option ℚ
  description : List Char
  available : List Char
  status : List Char
  utilities : Option (List Char)
  imageUrl : Option (List Char)
  imageUrls : List (List Char)
  detailUrl : List Char
  applyUrl : List Char
  lat : Option ℚ
  lng : Option ℚ
  deriving DecidableEq, Repr

/-! ## Fixed strings of the source -/

def strNow : List Char := L (r"Now")

def strContact : List Char := L (r"Contact for availability")

def strCommercial : List Char := L (r"Commercial")

def strAvailableStatus : List Char := L (r"available")

def strComingSoon : List Char := L (r"coming-soon")

def strPrivacy : List Char := L (r"Privacy Policy")

def strPlaceholder : List Char := L (r"place_holder")

def strLargePng : List Char := L (r"large.png")

def strCdnHost : List Char := L (r"images.cdn.appfolio.com")

def strListingTitle : List Char := L (r"Listing ")

def baseUrl : List Char := L (r"https://greyrockcommercial.appfolio.com")

/-- `https://greyrockcommercial.appfolio.com/listings/detail/UUID`. -/
def detailUrlOf (uuid : List Char) : List Char := baseUrl ++ detailNeedle ++ uuid

/-- The rental-application URL built from the UUID. -/
def applyUrlOf (uuid : List Char) : List Char :=
  baseUrl ++ L (r"/listings/rental_applications/new?listable_uid=") ++ uuid ++ L (r"&source=Website")

/-- `Listing ` followed by `uuid.slice(0, 8)`. -/
def synthTitle (uuid : List Char) : List Char := strListingTitle ++ uuid.take 8

/-- JS `s.charAt(0).toUpperCase() + s.slice(1)`. -/
def jsCapitalize : List Char → List Char
  | [] => []
  | c :: t => c.toUpper :: t

/-! ## DOM model -/

/-- An `img` element: its `src` and `data-src` attributes. -/
structure ImgEl where
  src : Option (List Char)
  dataSrc : Option (List Char)
  deriving Repr

/-- A v1 listing card (the scope fed to `extractListingData`): the
results of the queries v1 performs against the card container. -/
structure Card where
  /-- `card.textContent`. -/
  text : List Char
  /-- text of the `h1, h2, h3, h4, h5` elements, in document order. -/
  headings : List (List Char)
  /-- text of the first `a[href*="/listings/detail/"]` in the card. -/
  detailLinkText : Option (List Char)
  /-- text of the `p, .description, [class*="desc"]` elements, in order. -/
  paragraphs : List (List Char)
  /-- the first `img` in the card. -/
  firstImg : Option ImgEl
  deriving Repr

/-- An anchor of the index page together with the card container the
boundary locator (`closest`/`findCardContainer`) resolves for it
(`none` when no container qualifies). -/
structure AnchorEl where
  href : List Char
  card : Option Card
  deriving Repr

/-- The index page: its anchors (all `a` elements that carry an `href`,
in document order) and `document.body.textContent`. -/
structure IndexDoc where
  anchors : List AnchorEl
  bodyText : List Char
  deriving Repr

/-- A v2 detail page: the results of the queries `parseDetailPage`
performs. -/
structure DetailDoc where
  /-- `doc.body?.textContent` (a page may lack a body element). -/
  body : Option (List Char)
  /-- the `.gallery img, .swipebox img, img[class*="gallery"]` elements. -/
  galleryImgs : List ImgEl
  /-- all `img` elements (the fallback query). -/
  allImgs : List ImgEl
  /-- text of the `h1, h2, h3` elements, in document order. -/
  headings : List (List Char)
  /-- text of the `title` element, when present. -/
  titleTag : Option (List Char)
  /-- text of the description container, when present. -/
  descEl : Option (List Char)
  /-- text of the `p` elements, in document order. -/
  paragraphs : List (List Char)
  deriving Repr

/-! ## v1 `extractListingData` field extractors -/

/-- The v1 heading loop: first `h1..h5` whose trimmed text has length
in (3, 200) (v1 lines 171-179). -/
def firstHeadingV1 : List (List Char) → Option (List Char)
  | [] => none
  | h :: rest =>
      let t := jsTrim h
      if 3 < t.length && t.length < 200 then some t else firstHeadingV1 rest

/-- The v1 paragraph loop: first candidate whose trimmed text is longer
than 30 and free of boilerplate (v1 lines 195-202). -/
def firstParagraphV1 : List (List Char) → List Char
  | [] => []
  | p :: rest =>
      let t := jsTrim p
      if 30 < t.length && !jsIncludes t strPrivacy then t else firstParagraphV1 rest

/-- v1 rent extraction (lines 159-160). -/
def extractRentV1 (text : List Char) : Option ℚ :=
  match reExec rentReV1 text with
  | some m => jsParseFloat (removeDollarComma m.m0)
  | none => none

/-- v1 square-footage extraction (lines 163-164). -/
def extractSqftV1 (text : List Char) : Option ℚ :=
  match reExec sqftTextRe text with
  | some m => jsParseInt (removeComma (capGet m 1))
  | none => none

/-- Address extraction (v1 lines 167-168, v2 lines 622-623: identical). -/
def extractAddress (text : List Char) : Option (List Char) :=
  match reExec addressRe text with
  | some m => some (jsTrim (capGet m 1))
  | none => none

/-- City derivation from the extracted address (v1 lines 261-265,
v2 lines 681-685: identical). -/
def extractCityFrom (address : Option (List Char)) : Option (List Char) :=
  match address with
  | some a =>
      match reExec cityRe a with
      | some m => some (jsTrim (capGet m 1))
      | none => none
  | none => none

/-- v1 title strategies (a) heading and (b) descriptive link text
(lines 170-189). -/
def titleCandV1 (card : Card) : Option (List Char) :=
  let title0 : Option (List Char) := firstHeadingV1 card.headings
  if truthyStr title0 then title0 else
    match card.detailLinkText with
    | some lt =>
        let t := jsTrim lt
        if 5 < t.length && !reTest0 titleBoilerReV1 t then some t else none
    | none => none

/-- v1 title fallback chain (lines 170-191). -/
def extractTitleV1 (card : Card) (address : Option (List Char)) (uuid : List Char) : List Char :=
  if truthyStr (titleCandV1 card) then optStr (titleCandV1 card)
  else if truthyStr address then optStr address else synthTitle uuid

/-- v1 description fallback chain (lines 193-212). -/
def extractDescV1 (card : Card) : List Char :=
  let desc0 : List Char := firstParagraphV1 card.paragraphs
  if desc0.isEmpty then
    let allText := jsTrim (collapseWs card.text)
    match reExec descReV1 allText with
    | some m =>
        let d := jsTrim m.m0
        if 300 < d.length then d.take 297 ++ L (r"...") else d
    | none => []
  else desc0

/-- v1 availability extraction (lines 214-221). -/
def extractAvailV1 (text : List Char) : List Char :=
  if reTest availNowReV1 text then strNow
  else
    match reExec availDateReV1 text with
    | some m => capGet m 1
    | none => strContact

/-- v1 property-type extraction (lines 223-238). -/
def extractTypeV1 (text : List Char) : List Char :=
  match reExec commercialTypeReV1 text with
  | some m => jsCapitalize (jsTrim (capGet m 1))
  | none =>
      match reExec leaseTypeReV1 text with
      | some m => jsCapitalize (jsTrim (capGet m 1))
      | none =>
          match reExec vocabReV1 text with
          | some m => jsCapitalize (jsTrim (capGet m 1))
          | none => strCommercial

/-- v1 rent-per-SF: a directly stated rate wins, otherwise derive from
rent and sqft when both are truthy (lines 240-243). -/
def extractRentPerSFV1 (text : List Char) (rent sqft : Option ℚ) : Option ℚ :=
  match reExec rentSFReV1 text with
  | some m => jsParseFloat (capGet m 1)
  | none =>
      match rent, sqft with
      | some r, some s =>
          if decide (r ≠ 0) && decide (s ≠ 0) then some (jsToFixed2 (r / s * 12)) else none
      | _, _ => none

/-- v1 image extraction (lines 245-254). -/
def extractImageV1 (card : Card) : Option (List Char) :=
  match card.firstImg with
  | some img =>
      let src := jsAttrOr img.src img.dataSrc
      if truthyStr src && !jsIncludes (optStr src) strPlaceholder then src else none
  | none => none

/-- v1 `extractListingData(card, uuid)` (scrape.mjs v1, lines 155-283). -/
def extractListingData (card : Card) (uuid : List Char) : ListingV1 :=
  { id := uuid
    title := extractTitleV1 card (extractAddress card.text) uuid
    address := extractAddress card.text
    city := extractCityFrom (extractAddress card.text)
    type := extractTypeV1 card.text
    rent := extractRentV1 card.text
    sqft := extractSqftV1 card.text
    rentPerSF := extractRentPerSFV1 card.text (extractRentV1 card.text) (extractSqftV1 card.text)
    description := extractDescV1 card
    available := extractAvailV1 card.text
    status := if eqStr (extractAvailV1 card.text) strNow then strAvailableStatus else strComingSoon
    imageUrl := extractImageV1 card
    detailUrl := detailUrlOf uuid
    applyUrl := applyUrlOf uuid }

/-! ## v2 `parseDetailPage` field extractors -/

/-- The v2 heading loop: first `h1..h3` with trimmed length in (5, 300)
that does not start with boilerplate (v2 lines 609-616). -/
def firstHeadingV2 : List (List Char) → Option (List Char)
  | [] => none
  | h :: rest =>
      let t := jsTrim h
      if 5 < t.length && t.length < 300 && !reTest0 titleBoilerReV2 t then some t
      else firstHeadingV2 rest

/-- The v2 paragraph loop: longest trimmed paragraph free of
boilerplate, accumulator starting empty (v2 lines 631-641). -/
def longestParaV2 : List (List Char) → List Char → List Char
  | [], acc => acc
  | p :: rest, acc =>
      let t := jsTrim p
      if acc.length < t.length && !jsIncludes t strPrivacy then longestParaV2 rest t
      else longestParaV2 rest acc

/-- The v2 gallery-image fallback loop: push CDN-hosted image sources
not yet collected, preserving order (v2 lines 597-605). -/
def fallbackImgsV2 : List ImgEl → List (List Char) → List (List Char)
  | [], acc => acc
  | i :: rest, acc =>
      let src := jsAttrOr i.src i.dataSrc
      if truthyStr src && jsIncludes (optStr src) strCdnHost &&
          !jsIncludes (optStr src) strLargePng && !memStr (optStr src) acc then
        fallbackImgsV2 rest (acc ++ [optStr src])
      else fallbackImgsV2 rest acc

/-- v2 gallery-image extraction: filter, dedupe, then CDN fallback
(lines 586-605). -/
def extractImagesV2 (d : DetailDoc) : List (List Char) :=
  let imageUrls0 : List (List Char) :=
    dedupFS [] ((d.galleryImgs.map (fun i => jsAttrOr i.src i.dataSrc)).filterMap
      (fun srcO =>
        if truthyStr srcO && !jsIncludes (optStr srcO) strLargePng &&
            !jsIncludes (optStr srcO) strPlaceholder then some (optStr srcO) else none))
  if imageUrls0.isEmpty then fallbackImgsV2 d.allImgs [] else imageUrls0

/-- v2 title fallback chain (lines 607-619). -/
def extractTitleV2 (d : DetailDoc) (uuid : List Char) : List Char :=
  match firstHeadingV2 d.headings with
  | some t => t
  | none =>
      match d.titleTag with
      | some tt =>
          let t := jsTrim tt
          if t.isEmpty then synthTitle uuid else t
      | none => synthTitle uuid

/-- v2 description: the description container if nonempty, else the
longest paragraph (lines 625-641). -/
def extractDescV2 (d : DetailDoc) : List Char :=
  let d0 := match d.descEl with
    | some e => jsTrim e
    | none => []
  if d0.isEmpty then longestParaV2 d.paragraphs [] else d0

/-- v2 rent extraction (lines 643-645). -/
def extractRentV2 (text : List Char) : Option ℚ :=
  match reExec rentReV2 text with
  | some m => jsParseFloat (removeComma (capGet m 1))
  | none => none

/-- v2 square-footage extraction (lines 647-650). -/
def extractSqftV2 (text : List Char) : Option ℚ :=
  match orElseOpt (reExec sqftReV2 text) (reExec sqftTextRe text) with
  | some m => jsParseInt (removeComma (capGet m 1))
  | none => none

/-- v2 rent-per-SF: only a directly stated rate, otherwise `null`
(lines 652-655). -/
def extractRentPerSFV2 (text : List Char) : Option ℚ :=
  match orElseOpt (reExec rentSFReV2a text) (reExec rentSFReV2b text) with
  | some m => jsParseFloat (removeComma (capGet m 1))
  | none => none

/-- v2 availability extraction (lines 657-664). -/
def extractAvailV2 (text : List Char) : List Char :=
  match orElseOpt (reExec availReV2a text) (orElseOpt (reExec availReV2b text) (reExec availReV2c text)) with
  | some m => jsTrim (capGet m 1)
  | none => strContact

/-- v2 commercial-type extraction (lines 666-669). -/
def extractTypeV2 (text : List Char) : List Char :=
  match reExec commercialTypeReV2 text with
  | some m => jsTrim (capGet m 1)
  | none => strCommercial

/-- v2 lease-type extraction (lines 671-673). -/
def extractLeaseV2 (text : List Char) : Option (List Char) :=
  (reExec leaseTypeReV2 text).map (fun m => jsTrim (capGet m 1))

/-- v2 utilities extraction (lines 675-678). -/
def extractUtilV2 (text : List Char) : Option (List Char) :=
  (reExec utilReV2 text).map (fun m => jsTrim (capGet m 1))

/-- v2 `parseDetailPage(html, uuid)` (scrape.mjs v2, lines 581-710). -/
def parseDetailPage (d : DetailDoc) (uuid : List Char) : ListingV2 :=
  let text := optStr d.body
  { id := uuid
    title := extractTitleV2 d uuid
    address := extractAddress text
    city := extractCityFrom (extractAddress text)
    type := extractTypeV2 text
    leaseType := extractLeaseV2 text
    rent := extractRentV2 text
    sqft := extractSqftV2 text
    rentPerSF := extractRentPerSFV2 text
    description := extractDescV2 d
    available := extractAvailV2 text
    status := if reTest nowReCI (extractAvailV2 text) then strAvailableStatus else strComingSoon
    utilities := extractUtilV2 text
    imageUrl := (if truthyStr (extractImagesV2 d).head? then (extractImagesV2 d).head? else none)
    imageUrls := extractImagesV2 d
    detailUrl := detailUrlOf uuid
    applyUrl := applyUrlOf uuid
    lat := none
    lng := none }

/-! ## Index-page parsing -/

/-- The outcome taxonomy of a run: the parse stage throws
`STRUCTURE_CHANGED` (mapped by `main` to exit code 2) while fetch
failures surface as `networkError` (exit code 1). -/
inductive ScrapeErr where
  | structureChanged
  | networkError
  deriving DecidableEq, Repr

/-- Result of v1 `parseListings`. -/
structure ParseV1Res where
  listings : List ListingV1
  noVacancies : Bool
  deriving Repr

/-- Result of v2 `parseIndexPage`. -/
structure IndexRes where
  uuids : List (List Char)
  noVacancies : Bool
  deriving DecidableEq, Repr

/-- The empty-inventory phrases both versions recognize. -/
def hasNoVacPhrase (t : List Char) : Bool :=
  jsIncludes t (L (r"no available properties")) || jsIncludes t (L (r"No vacancies found")) ||
    jsIncludes t (L (r"no vacancies"))

/-- The v1 per-anchor loop: dedup by UUID, resolve the card, extract. -/
def goListingsV1 (seen : List (List Char)) : List AnchorEl → List ListingV1
  | [] => []
  | a :: rest =>
      match reExec uuidRe a.href with
      | none => goListingsV1 seen rest
      | some m =>
          let uuid := capGet m 1
          if memStr uuid seen then goListingsV1 seen rest
          else
            match a.card with
            | none => goListingsV1 (uuid :: seen) rest
            | some c => extractListingData c uuid :: goListingsV1 (uuid :: seen) rest

/-- v1 `parseListings(html)` (scrape.mjs v1, lines 76-134). -/
def parseListings (d : IndexDoc) : Except ScrapeErr ParseV1Res :=
  let detailLinks := d.anchors.filter (fun a => jsIncludes a.href detailNeedle)
  if detailLinks.isEmpty then
    if hasNoVacPhrase d.bodyText then .ok ⟨[], true⟩
    else .error .structureChanged
  else .ok ⟨goListingsV1 [] detailLinks, false⟩

/-- The v2 pre-dedup UUID list:
`[...detailLinks].map(link => href.match(...)?.[1]).filter(Boolean)`. -/
def rawUUIDs (d : IndexDoc) : List (List Char) :=
  (((d.anchors.filter (fun a => jsIncludes a.href detailNeedle)).filterMap
    (fun a => (reExec uuidRe a.href).map (fun m => capGet m 1))).filter
      (fun u => !u.isEmpty))

/-- v2 `parseIndexPage(html)` (scrape.mjs v2, lines 551-577). -/
def parseIndexPage (d : IndexDoc) : Except ScrapeErr IndexRes :=
  let detailLinks := d.anchors.filter (fun a => jsIncludes a.href detailNeedle)
  if detailLinks.isEmpty then
    if hasNoVacPhrase d.bodyText then .ok ⟨[], true⟩
    else .error .structureChanged
  else .ok ⟨dedupFS [] (rawUUIDs d), false⟩

/-! ## Validation

The source pushes formatted message strings such as
`Listing ID: missing address`.  Warnings are modelled as an inductive
whose constructors correspond one-to-one to the six distinct message
templates, each carrying the interpolated values; errors (a single
template) are kept as rendered strings. -/

inductive Warning where
  | missingAddress (id : List Char)
  | missingRent (id : List Char)
  | missingSqft (id : List Char)
  | noImages (id : List Char)
  | highRent (id : List Char) (v : ℚ)
  | highSqft (id : List Char) (v : ℚ)
  deriving DecidableEq, Repr

/-- The listing id a warning message names. -/
def Warning.lid : Warning → List Char
  | .missingAddress i => i
  | .missingRent i => i
  | .missingSqft i => i
  | .noImages i => i
  | .highRent i _ => i
  | .highSqft i _ => i

def natToDecGo : Nat → Nat → List Char
  | 0, _ => []
  | fuel + 1, n => if n = 0 then [] else natToDecGo fuel (n / 10) ++ [Char.ofNat (48 + n % 10)]

/-- Decimal rendering of a natural (JS template interpolation). -/
def natToDec (n : Nat) : List Char := if n = 0 then ['0'] else natToDecGo (n + 1) n

/-- `Unexpectedly high listing count: N. Possible parse error.` (v1). -/
def errHighCountV1 (n : Nat) : List Char :=
  L (r"Unexpectedly high listing count: ") ++ natToDec n ++ L (r". Possible parse error.")

/-- `Unexpectedly high listing count: N` (v2). -/
def errHighCountV2 (n : Nat) : List Char :=
  L (r"Unexpectedly high listing count: ") ++ natToDec n

/-- Result shape of both `validateListings` versions. -/
structure ValidationRes where
  errors : List (List Char)
  warnings : List Warning
  valid : Bool
  deriving Repr

namespace V1

/-- The v1 first warning pass over one listing. -/
def recWarnings1 (l : ListingV1) : List Warning :=
  (if !truthyStr l.address then [Warning.missingAddress l.id] else []) ++
  (if !truthyNum l.rent && decide (l.rent ≠ some 0) then [Warning.missingRent l.id] else []) ++
  (if !truthyNum l.sqft then [Warning.missingSqft l.id] else [])

/-- The v1 sanity warning pass over one listing. -/
def recWarnings2 (l : ListingV1) : List Warning :=
  (match l.rent with
   | some q => if decide (q ≠ 0) && decide ((1000000 : ℚ) < q) then [Warning.highRent l.id q] else []
   | none => []) ++
  (match l.sqft with
   | some q => if decide (q ≠ 0) && decide ((1000000 : ℚ) < q) then [Warning.highSqft l.id q] else []
   | none => [])

end V1

/-- v1 `validateListings(listings)` (scrape.mjs v1, lines 315-347). -/
def V1.validateListings (listings : List ListingV1) : ValidationRes :=
  let warnings1 := listings.flatMap V1.recWarnings1
  let errors :=
    if 200 < listings.length then [errHighCountV1 listings.length] else []
  let warnings2 := listings.flatMap V1.recWarnings2
  { errors := errors
    warnings := warnings1 ++ warnings2
    valid := errors.length == 0 }

namespace V2

/-- The v2 first warning pass over one listing (adds the missing-image
check). -/
def recWarnings1 (l : ListingV2) : List Warning :=
  (if !truthyStr l.address then [Warning.missingAddress l.id] else []) ++
  (if !truthyNum l.rent && decide (l.rent ≠ some 0) then [Warning.missingRent l.id] else []) ++
  (if !truthyNum l.sqft then [Warning.missingSqft l.id] else []) ++
  (if !truthyStr l.imageUrl then [Warning.noImages l.id] else [])

/-- The v2 sanity warning pass over one listing. -/
def recWarnings2 (l : ListingV2) : List Warning :=
  (match l.rent with
   | some q => if decide (q ≠ 0) && decide ((1000000 : ℚ) < q) then [Warning.highRent l.id q] else []
   | none => []) ++
  (match l.sqft with
   | some q => if decide (q ≠ 0) && decide ((1000000 : ℚ) < q) then [Warning.highSqft l.id q] else []
   | none => [])

end V2

/-- v2 `validateListings(listings)` (scrape.mjs v2, lines 746-771). -/
def V2.validateListings (listings : List ListingV2) : ValidationRes :=
  let warnings1 := listings.flatMap V2.recWarnings1
  let errors :=
    if 200 < listings.length then [errHighCountV2 listings.length] else []
  let warnings2 := listings.flatMap V2.recWarnings2
  { errors := errors
    warnings := warnings1 ++ warnings2
    valid := errors.length == 0 }

/-! ## Snapshot fingerprint

`simpleHash(JSON.stringify(listings))` over the v2 record shape.
`JSON.stringify` is modelled for the value shapes a `ListingV2` can
hold: strings, finite decimal numbers, `null`, and string arrays; keys
appear in insertion order, `lat`/`lng` (assigned after parsing) last
and omitted while unassigned. -/

/-- JSON string escaping. -/
def escChar (c : Char) : List Char :=
  if c == '"' then ['\\', '"']
  else if c == '\\' then ['\\', '\\']
  else if c == '\n' then ['\\', 'n']
  else if c == '\r' then ['\\', 'r']
  else if c == '\t' then ['\\', 't']
  else if c == '\x08' then ['\\', 'b']
  else if c == '\x0c' then ['\\', 'f']
  else if c.toNat < 32 then
    ['\\', 'u', '0', '0', Char.ofNat (if c.toNat / 16 < 10 then 48 + c.toNat / 16 else 87 + c.toNat / 16),
      Char.ofNat (if c.toNat % 16 < 10 then 48 + c.toNat % 16 else 87 + c.toNat % 16)]
  else [c]

/-- A character needing no JSON escape. -/
def plainChar (c : Char) : Bool := !(c == '"' || c == '\\' || c.toNat < 32)

def escStr (s : List Char) : List Char := s.flatMap escChar

/-- JSON rendering of a string value. -/
def jsonStr (s : List Char) : List Char := '"' :: (escStr s ++ ['"'])

def strNull : List Char := L (r"null")

def jsonOptStr : Option (List Char) → List Char
  | some s => jsonStr s
  | none => strNull

/-- Decimal digits of the fractional part of a rational with a finite
decimal expansion (the only numbers this program produces; fuel bounds
the digit count). -/
def fracDigits : Nat → ℚ → List Char
  | 0, _ => []
  | fuel + 1, q =>
      if q = 0 then []
      else
        let d := Int.floor (q * 10)
        Char.ofNat (48 + d.toNat) :: fracDigits fuel (q * 10 - (d : ℚ))

/-- JSON rendering of a nonnegative number with a finite decimal
expansion (models JS number printing for the values this program
serializes). -/
def jsonNum (q : ℚ) : List Char :=
  let ip := Int.floor q
  let fp := q - (ip : ℚ)
  if fp = 0 then natToDec ip.toNat
  else natToDec ip.toNat ++ '.' :: fracDigits 30 fp

def jsonOptNum : Option ℚ → List Char
  | some q => jsonNum q
  | none => strNull

/-- JSON rendering of an array of strings. -/
def jsonStrArr (l : List (List Char)) : List Char :=
  ['['] ++ List.intercalate [','] (l.map jsonStr) ++ [']']

/-- One key of a JSON object body: `"key":`. -/
def jsonKey (k : List Char) : List Char := jsonStr k ++ [':']

/-- The serialized fields of a `ListingV2` before `title`. -/
def jsonPre (l : ListingV2) : List Char :=
  ['\x7b'] ++ jsonKey (L (r"id")) ++ jsonStr l.id ++ [','] ++ jsonKey (L (r"title"))

/-- The serialized fields of a `ListingV2` after `title`. -/
def jsonPost (l : ListingV2) : List Char :=
  [','] ++ jsonKey (L (r"address")) ++ jsonOptStr l.address ++
  [','] ++ jsonKey (L (r"city")) ++ jsonOptStr l.city ++
  [','] ++ jsonKey (L (r"type")) ++ jsonStr l.type ++
  [','] ++ jsonKey (L (r"leaseType")) ++ jsonOptStr l.leaseType ++
  [','] ++ jsonKey (L (r"rent")) ++ jsonOptNum l.rent ++
  [','] ++ jsonKey (L (r"sqft")) ++ jsonOptNum l.sqft ++
  [','] ++ jsonKey (L (r"rentPerSF")) ++ jsonOptNum l.rentPerSF ++
  [','] ++ jsonKey (L (r"description")) ++ jsonStr l.description ++
  [','] ++ jsonKey (L (r"available")) ++ jsonStr l.available ++
  [','] ++ jsonKey (L (r"status")) ++ jsonStr l.status ++
  [','] ++ jsonKey (L (r"utilities")) ++ jsonOptStr l.utilities ++
  [','] ++ jsonKey (L (r"imageUrl")) ++ jsonOptStr l.imageUrl ++
  [','] ++ jsonKey (L (r"imageUrls")) ++ jsonStrArr l.imageUrls ++
  [','] ++ jsonKey (L (r"detailUrl")) ++ jsonStr l.detailUrl ++
  [','] ++ jsonKey (L (r"applyUrl")) ++ jsonStr l.applyUrl ++
  (match l.lat with
   | some q => [','] ++ jsonKey (L (r"lat")) ++ jsonNum q
   | none => []) ++
  (match l.lng with
   | some q => [','] ++ jsonKey (L (r"lng")) ++ jsonNum q
   | none => []) ++ ['\x7d']

/-- `JSON.stringify` of one listing object. -/
def jsonListing (l : ListingV2) : List Char := jsonPre l ++ (jsonStr l.title ++ jsonPost l)

/-- `JSON.stringify(listings)` (the compact form hashed by `main`). -/
def jsonListings (ls : List ListingV2) : List Char :=
  ['['] ++ List.intercalate [','] (ls.map jsonListing) ++ [']']

/-- ToInt32 (the coercion performed by `<< ` and `|= 0`). -/
def jsToInt32 (z : ℤ) : ℤ :=
  let m := z % 4294967296
  if m < 2147483648 then m else m - 4294967296

/-- One step of `simpleHash`:
`hash = ((hash << 5) - hash) + char; hash |= 0`. -/
def hashStep (h : ℤ) (c : Char) : ℤ := jsToInt32 (jsToInt32 (h * 32) - h + (c.toNat : ℤ))

def b36digit (d : Nat) : Char := if d < 10 then Char.ofNat (48 + d) else Char.ofNat (87 + d)

def natB36go : Nat → Nat → List Char
  | 0, _ => []
  | fuel + 1, n => if n = 0 then [] else natB36go fuel (n / 36) ++ [b36digit (n % 36)]

def natB36 (n : Nat) : List Char := if n = 0 then ['0'] else natB36go (n + 1) n

/-- JS `z.toString(36)` for a 32-bit integer. -/
def intB36 (z : ℤ) : List Char := if z < 0 then '-' :: natB36 z.natAbs else natB36 z.toNat

/-- `simpleHash(str)` (identical in both versions, lines 465-473 and
940-948). -/
def simpleHash (s : List Char) : List Char := intB36 (s.foldl hashStep 0)

/-- The content fingerprint `simpleHash(JSON.stringify(listings))`. -/
def simpleFingerprint (ls : List ListingV2) : List Char := simpleHash (jsonListings ls)

/-! ## Basic lemmas about the JS primitives -/

lemma eqStr_iff (a b : List Char) : eqStr a b = true ↔ a = b := by
  simp [eqStr]

lemma memStr_iff (u : List Char) (l : List (List Char)) : memStr u l = true ↔ u ∈ l := by
  simp [memStr, eqStr, List.any_eq_true]

lemma memStr_false (u : List Char) (l : List (List Char)) (h : memStr u l = false) : u ∉ l := by
  intro hu
  rw [← memStr_iff u l] at hu
  simp [h] at hu

lemma truthyStr_optStr (o : Option (List Char)) (h : truthyStr o = true) :
    0 < (optStr o).length := by
  cases o with
  | none => simp [truthyStr] at h
  | some l => cases l <;> simp_all [truthyStr, optStr]

lemma digitVal_nonneg (c : Char) : 0 ≤ digitVal c := by
  simp [digitVal]

lemma digitsVal_go_nonneg (l : List Char) :
    ∀ a : ℚ, 0 ≤ a → 0 ≤ l.foldl (fun acc c => acc * 10 + digitVal c) a := by
  induction l with
  | nil => intro a h; simpa
  | cons c t ih =>
      intro a h
      simp only [List.foldl]
      exact ih _ (add_nonneg (mul_nonneg h (by norm_num)) (digitVal_nonneg c))

lemma digitsVal_nonneg (l : List Char) : 0 ≤ digitsVal l :=
  digitsVal_go_nonneg l 0 le_rfl

lemma fracVal_nonneg (l : List Char) : 0 ≤ fracVal l := by
  induction l with
  | nil => simp [fracVal]
  | cons c t ih =>
      simp only [fracVal, List.foldr] at ih ⊢
      exact div_nonneg (add_nonneg (digitVal_nonneg c) ih) (by norm_num)

lemma jsParseFloat_nonneg (s : List Char) (q : ℚ) (h : jsParseFloat s = some q) : 0 ≤ q := by
  simp only [jsParseFloat] at h
  split at h
  · split at h
    · exact absurd h (by simp)
    · injection h with h'
      exact h' ▸ add_nonneg (digitsVal_nonneg _) (fracVal_nonneg _)
  · split at h
    · exact absurd h (by simp)
    · injection h with h'
      exact h' ▸ digitsVal_nonneg _

lemma jsParseInt_nonneg (s : List Char) (q : ℚ) (h : jsParseInt s = some q) : 0 ≤ q := by
  simp only [jsParseInt] at h
  split at h
  · exact absurd h (by simp)
  · injection h with h'
    exact h' ▸ digitsVal_nonneg _

lemma jsToFixed2_nonneg (q : ℚ) (h : 0 ≤ q) : 0 ≤ jsToFixed2 q := by
  have h1 : (0 : ℚ) ≤ q * 100 + 1 / 2 := by
    have := mul_nonneg h (by norm_num : (0 : ℚ) ≤ 100)
    linarith
  have h2 : (0 : ℤ) ≤ Int.floor (q * 100 + 1 / 2) := Int.floor_nonneg.2 h1
  simp only [jsToFixed2]
  have : (0 : ℚ) ≤ ((Int.floor (q * 100 + 1 / 2) : ℤ) : ℚ) := by exact_mod_cast h2
  exact div_nonneg this (by norm_num)

lemma jsTrim_head_pos (c : Char) (t : List Char) (h : isSpaceJS c = false) :
    0 < (jsTrim (c :: t)).length := by
  simp only [jsTrim]
  rw [List.dropWhile_cons_of_neg (by simp [h])]
  rcases hd : (c :: t).reverse.dropWhile isSpaceJS with _ | ⟨x, xs⟩
  · have : ∀ y ∈ (c :: t).reverse, isSpaceJS y = true := by
      simpa using List.dropWhile_eq_nil_iff.1 hd
    have hc := this c (by simp)
    simp [hc] at h
  · simp

/-! ## Lemmas about first-seen deduplication -/

lemma mem_dedupFS : ∀ (l seen : List (List Char)) (u : List Char),
    u ∈ dedupFS seen l ↔ u ∈ l ∧ u ∉ seen := by
  intro l
  induction l with
  | nil => simp [dedupFS]
  | cons x xs ih =>
      intro seen u
      simp only [dedupFS]
      split
      · rename_i h
        have hx : x ∈ seen := (memStr_iff _ _).1 h
        rw [ih]
        constructor
        · rintro ⟨h1, h2⟩
          exact ⟨List.mem_cons_of_mem _ h1, h2⟩
        · rintro ⟨h1, h2⟩
          rcases List.mem_cons.1 h1 with rfl | h1
          · exact absurd hx h2
          · exact ⟨h1, h2⟩
      · rename_i h
        have hx : x ∉ seen := fun hs => h ((memStr_iff _ _).2 hs)
        constructor
        · intro hu
          rcases List.mem_cons.1 hu with rfl | hu
          · exact ⟨List.mem_cons_self _ _, hx⟩
          · obtain ⟨h1, h2⟩ := (ih _ _).1 hu
            exact ⟨List.mem_cons_of_mem _ h1, fun hs => h2 (List.mem_cons_of_mem _ hs)⟩
        · rintro ⟨h1, h2⟩
          rcases List.mem_cons.1 h1 with rfl | h1
          · exact List.mem_cons_self _ _
          · by_cases hux : u = x
            · exact hux ▸ List.mem_cons_self _ _
            · exact List.mem_cons_of_mem _ ((ih _ _).2 ⟨h1, by simp [List.mem_cons, hux, h2]⟩)

lemma nodup_dedupFS : ∀ (l seen : List (List Char)), (dedupFS seen l).Nodup := by
  intro l
  induction l with
  | nil => simp [dedupFS]
  | cons x xs ih =>
      intro seen
      simp only [dedupFS]
      split
      · exact ih seen
      · refine List.nodup_cons.2 ⟨fun hx => ?_, ih _⟩
        exact ((mem_dedupFS _ _ _).1 hx).2 (List.mem_cons_self _ _)

lemma firstIdx_cons (u x : List Char) (xs : List (List Char)) :
    firstIdx u (x :: xs) = if eqStr x u then 0 else firstIdx u xs + 1 := rfl

lemma dedupFS_order : ∀ (l seen a b : _), [a, b].Sublist (dedupFS seen l) →
    firstIdx a l < firstIdx b l := by
  intro l
  induction l with
  | nil => intro seen a b h; simp [dedupFS] at h
  | cons x xs ih =>
      intro seen a b h
      simp only [dedupFS] at h
      split at h
      · rename_i hm
        have hmem := h.subset
        have ha : a ∈ dedupFS seen xs := hmem (by simp)
        have hb : b ∈ dedupFS seen xs := hmem (by simp)
        have hans : a ∉ seen := ((mem_dedupFS _ _ _).1 ha).2
        have hbns : b ∉ seen := ((mem_dedupFS _ _ _).1 hb).2
        have hax : ¬eqStr x a = true := fun he => hans ((eqStr_iff _ _).1 he ▸ (memStr_iff _ _).1 hm)
        have hbx : ¬eqStr x b = true := fun he => hbns ((eqStr_iff _ _).1 he ▸ (memStr_iff _ _).1 hm)
        rw [firstIdx_cons, firstIdx_cons, if_neg hax, if_neg hbx]
        exact Nat.succ_lt_succ (ih seen a b h)
      · rename_i hm
        cases h with
        | cons _ h' =>
            have hmem := h'.subset
            have ha : a ∈ dedupFS (x :: seen) xs := hmem (by simp)
            have hb : b ∈ dedupFS (x :: seen) xs := hmem (by simp)
            have hans : a ∉ x :: seen := ((mem_dedupFS _ _ _).1 ha).2
            have hbns : b ∉ x :: seen := ((mem_dedupFS _ _ _).1 hb).2
            have hax : ¬eqStr x a = true := fun he => hans ((eqStr_iff _ _).1 he ▸ List.mem_cons_self _ _)
            have hbx : ¬eqStr x b = true := fun he => hbns ((eqStr_iff _ _).1 he ▸ List.mem_cons_self _ _)
            rw [firstIdx_cons, firstIdx_cons, if_neg hax, if_neg hbx]
            exact Nat.succ_lt_succ (ih _ a b h')
        | cons₂ _ h' =>
            have hb : b ∈ dedupFS (x :: seen) xs := (List.singleton_sublist.1 h')
            have hbns : b ∉ x :: seen := ((mem_dedupFS _ _ _).1 hb).2
            have hbx : ¬eqStr x b = true := fun he => hbns ((eqStr_iff _ _).1 he ▸ List.mem_cons_self _ _)
            rw [firstIdx_cons, firstIdx_cons, if_pos ((eqStr_iff x x).2 rfl), if_neg hbx]
            exact Nat.succ_pos _

/-! ## Engine lemmas -/

lemma kOut_rest (pc : Option Char) (s : List Char) (caps) (k : Nat) :
    (kOut pc s caps k).rest = s.drop k := rfl

lemma kOut_caps (pc : Option Char) (s : List Char) (caps) (k : Nat) :
    (kOut pc s caps k).caps = caps := rfl

lemma mmatch_rest_le : ∀ (re : RE) (pc : Option Char) (s : List Char) (caps) (o : MOut),
    o ∈ mmatch re pc s caps → o.rest.length ≤ s.length := by
  intro re
  induction re with
  | eps =>
      intro pc s caps o h
      simp only [mmatch, List.mem_singleton] at h
      simp [h]
  | cls p =>
      intro pc s caps o h
      rcases s with _ | ⟨c, t⟩
      · simp [mmatch] at h
      · simp only [mmatch] at h
        split at h
        · simp only [List.mem_singleton] at h
          simp [h]
        · simp at h
  | starCls p =>
      intro pc s caps o h
      simp only [mmatch, List.mem_map] at h
      obtain ⟨k, _, rfl⟩ := h
      simp [kOut_rest, Nat.sub_le]
  | plusCls p =>
      intro pc s caps o h
      simp only [mmatch, List.mem_map] at h
      obtain ⟨k, _, rfl⟩ := h
      simp [kOut_rest, Nat.sub_le]
  | lazyPlusCls p =>
      intro pc s caps o h
      simp only [mmatch, List.mem_map] at h
      obtain ⟨k, _, rfl⟩ := h
      simp [kOut_rest, Nat.sub_le]
  | repCls p lo hi =>
      intro pc s caps o h
      simp only [mmatch] at h
      split at h
      · simp only [List.mem_map] at h
        obtain ⟨k, _, rfl⟩ := h
        simp [kOut_rest, Nat.sub_le]
      · simp at h
  | seq a b iha ihb =>
      intro pc s caps o h
      simp only [mmatch, List.mem_flatMap] at h
      obtain ⟨o1, h1, h2⟩ := h
      exact le_trans (ihb _ _ _ _ h2) (iha _ _ _ _ h1)
  | alt a b iha ihb =>
      intro pc s caps o h
      rcases List.mem_append.1 h with h | h
      · exact iha _ _ _ _ h
      · exact ihb _ _ _ _ h
  | opt a iha =>
      intro pc s caps o h
      rcases List.mem_append.1 h with h | h
      · exact iha _ _ _ _ h
      · simp only [List.mem_singleton] at h
        simp [h]
  | grp i a iha =>
      intro pc s caps o h
      simp only [mmatch, List.mem_map] at h
      obtain ⟨o1, h1, rfl⟩ := h
      simpa using iha _ _ _ _ h1
  | wb =>
      intro pc s caps o h
      simp only [mmatch] at h
      split at h
      · simp only [List.mem_singleton] at h
        simp [h]
      · simp at h
  | eos =>
      intro pc s caps o h
      rcases s with _ | ⟨c, t⟩
      · simp only [mmatch, List.mem_singleton] at h
        simp [h]
      · simp [mmatch] at h

/-- Syntactic criterion: every match of `re` consumes at least one
character. -/
def minOne : RE → Bool
  | .cls _ => true
  | .plusCls _ => true
  | .lazyPlusCls _ => true
  | .repCls _ lo _ => decide (1 ≤ lo)
  | .seq a b => minOne a || minOne b
  | .alt a b => minOne a && minOne b
  | .grp _ a => minOne a
  | _ => false

lemma clsRun_le (p : Char → Bool) (s : List Char) : clsRun p s ≤ s.length := by
  have h : List.Sublist (s.takeWhile p) s := List.takeWhile_sublist p
  simpa [clsRun] using h.length_le

lemma mmatch_rest_lt : ∀ (re : RE), minOne re = true →
    ∀ (pc : Option Char) (s : List Char) (caps) (o : MOut),
    o ∈ mmatch re pc s caps → o.rest.length < s.length := by
  intro re
  induction re with
  | eps => intro h; simp [minOne] at h
  | cls p =>
      intro _ pc s caps o h
      rcases s with _ | ⟨c, t⟩
      · simp [mmatch] at h
      · simp only [mmatch] at h
        split at h
        · simp only [List.mem_singleton] at h
          simp [h, Nat.lt_succ_self]
        · simp at h
  | starCls p => intro h; simp [minOne] at h
  | plusCls p =>
      intro _ pc s caps o h
      simp only [mmatch, List.mem_map] at h
      obtain ⟨k, hk, rfl⟩ := h
      simp only [List.mem_reverse, List.mem_map, List.mem_range] at hk
      obtain ⟨j, hj, rfl⟩ := hk
      have hkr : j + 1 ≤ clsRun p s := hj
      have hsl : 1 ≤ s.length := le_trans (by omega) (le_trans hkr (clsRun_le p s))
      simp only [kOut_rest, List.length_drop]
      omega
  | lazyPlusCls p =>
      intro _ pc s caps o h
      simp only [mmatch, List.mem_map] at h
      obtain ⟨k, hk, rfl⟩ := h
      simp only [List.mem_map, List.mem_range] at hk
      obtain ⟨j, hj, rfl⟩ := hk
      have hkr : j + 1 ≤ clsRun p s := hj
      have hsl : 1 ≤ s.length := le_trans (by omega) (le_trans hkr (clsRun_le p s))
      simp only [kOut_rest, List.length_drop]
      omega
  | repCls p lo hi =>
      intro hm pc s caps o h
      have hlo : 1 ≤ lo := by simpa [minOne] using hm
      simp only [mmatch] at h
      split at h
      · rename_i hr
        simp only [List.mem_map, List.mem_reverse, List.mem_range] at h
        obtain ⟨k, ⟨j, hj, rfl⟩, rfl⟩ := h
        have h1 : 1 ≤ j + lo := by omega
        have h2 : j + lo ≤ min (clsRun p s) hi := by omega
        have h3 : j + lo ≤ s.length := le_trans h2 (le_trans (min_le_left _ _) (clsRun_le p s))
        simp only [kOut_rest, List.length_drop]
        omega
      · simp at h
  | seq a b iha ihb =>
      intro hm pc s caps o h
      simp only [mmatch, List.mem_flatMap] at h
      obtain ⟨o1, h1, h2⟩ := h
      rcases (by simpa [minOne] using hm : minOne a = true ∨ minOne b = true) with ha | hb
      · exact lt_of_le_of_lt (mmatch_rest_le b _ _ _ _ h2) (iha ha _ _ _ _ h1)
      · exact lt_of_lt_of_le (ihb hb _ _ _ _ h2) (mmatch_rest_le a _ _ _ _ h1)
  | alt a b iha ihb =>
      intro hm pc s caps o h
      have hab : minOne a = true ∧ minOne b = true := by simpa [minOne] using hm
      rcases List.mem_append.1 h with h | h
      · exact iha hab.1 _ _ _ _ h
      · exact ihb hab.2 _ _ _ _ h
  | opt a iha => intro h; simp [minOne] at h
  | grp i a iha =>
      intro hm pc s caps o h
      simp only [mmatch, List.mem_map] at h
      obtain ⟨o1, h1, rfl⟩ := h
      simpa using iha (by simpa [minOne] using hm) _ _ _ _ h1
  | wb => intro h; simp [minOne] at h
  | eos => intro h; simp [minOne] at h

/-- Syntactic criterion: `re` contains no capture group. -/
def noGroups : RE → Bool
  | .grp _ _ => false
  | .seq a b => noGroups a && noGroups b
  | .alt a b => noGroups a && noGroups b
  | .opt a => noGroups a
  | _ => true

lemma noGroups_caps : ∀ (re : RE), noGroups re = true →
    ∀ (pc : Option Char) (s : List Char) (caps) (o : MOut),
    o ∈ mmatch re pc s caps → o.caps = caps := by
  intro re
  induction re with
  | eps =>
      intro _ pc s caps o h
      simp only [mmatch, List.mem_singleton] at h
      simp [h]
  | cls p =>
      intro _ pc s caps o h
      rcases s with _ | ⟨c, t⟩
      · simp [mmatch] at h
      · simp only [mmatch] at h
        split at h
        · simp only [List.mem_singleton] at h
          simp [h]
        · simp at h
  | starCls p =>
      intro _ pc s caps o h
      simp only [mmatch, List.mem_map] at h
      obtain ⟨k, _, rfl⟩ := h
      simp [kOut_caps]
  | plusCls p =>
      intro _ pc s caps o h
      simp only [mmatch, List.mem_map] at h
      obtain ⟨k, _, rfl⟩ := h
      simp [kOut_caps]
  | lazyPlusCls p =>
      intro _ pc s caps o h
      simp only [mmatch, List.mem_map] at h
      obtain ⟨k, _, rfl⟩ := h
      simp [kOut_caps]
  | repCls p lo hi =>
      intro _ pc s caps o h
      simp only [mmatch] at h
      split at h
      · simp only [List.mem_map] at h
        obtain ⟨k, _, rfl⟩ := h
        simp [kOut_caps]
      · simp at h
  | seq a b iha ihb =>
      intro hg pc s caps o h
      have hab : noGroups a = true ∧ noGroups b = true := by simpa [noGroups] using hg
      simp only [mmatch, List.mem_flatMap] at h
      obtain ⟨o1, h1, h2⟩ := h
      rw [ihb hab.2 _ _ _ _ h2, iha hab.1 _ _ _ _ h1]
  | alt a b iha ihb =>
      intro hg pc s caps o h
      have hab : noGroups a = true ∧ noGroups b = true := by simpa [noGroups] using hg
      rcases List.mem_append.1 h with h | h
      · exact iha hab.1 _ _ _ _ h
      · exact ihb hab.2 _ _ _ _ h
  | opt a iha =>
      intro hg pc s caps o h
      rcases List.mem_append.1 h with h | h
      · exact iha (by simpa [noGroups] using hg) _ _ _ _ h
      · simp only [List.mem_singleton] at h
        simp [h]
  | grp i a iha => intro h; simp [noGroups] at h
  | wb =>
      intro _ pc s caps o h
      simp only [mmatch] at h
      split at h
      · simp only [List.mem_singleton] at h
        simp [h]
      · simp at h
  | eos =>
      intro _ pc s caps o h
      rcases s with _ | ⟨c, t⟩
      · simp only [mmatch, List.mem_singleton] at h
        simp [h]
      · simp [mmatch] at h

lemma head_of_clsRun_pos (p : Char → Bool) (s : List Char) (h : 1 ≤ clsRun p s) :
    ∃ c t, s = c :: t ∧ p c = true := by
  rcases s with _ | ⟨c, t⟩
  · simp [clsRun] at h
  · rcases hp : p c with _ | _
    · simp [clsRun, List.takeWhile_cons, hp] at h
    · exact ⟨c, t, rfl, hp⟩

/-- Syntactic criterion: every match of `re` begins with a character of
class `p`. -/
inductive StartsClsP : (Char → Bool) → RE → Prop
  | cls (p : Char → Bool) : StartsClsP p (.cls p)
  | plusCls (p : Char → Bool) : StartsClsP p (.plusCls p)
  | lazyPlusCls (p : Char → Bool) : StartsClsP p (.lazyPlusCls p)
  | repCls (p : Char → Bool) (lo hi : Nat) (h : 1 ≤ lo) : StartsClsP p (.repCls p lo hi)
  | seq (p : Char → Bool) (a b : RE) (h : StartsClsP p a) : StartsClsP p (.seq a b)
  | grp (p : Char → Bool) (i : Nat) (a : RE) (h : StartsClsP p a) : StartsClsP p (.grp i a)
  | alt (p : Char → Bool) (a b : RE) (ha : StartsClsP p a) (hb : StartsClsP p b) :
      StartsClsP p (.alt a b)

lemma startsClsP_head {p : Char → Bool} {re : RE} (h : StartsClsP p re) :
    ∀ (pc : Option Char) (s : List Char) (caps) (o : MOut), o ∈ mmatch re pc s caps →
    ∃ c t, s = c :: t ∧ p c = true := by
  induction h with
  | cls =>
      intro pc s caps o ho
      rcases s with _ | ⟨c, t⟩
      · simp [mmatch] at ho
      · simp only [mmatch] at ho
        split at ho
        · rename_i hp
          exact ⟨c, t, rfl, hp⟩
        · simp at ho
  | plusCls =>
      intro pc s caps o ho
      simp only [mmatch, List.mem_map, List.mem_reverse, List.mem_range] at ho
      obtain ⟨k, ⟨j, hj, rfl⟩, rfl⟩ := ho
      exact head_of_clsRun_pos p s (by omega)
  | lazyPlusCls =>
      intro pc s caps o ho
      simp only [mmatch, List.mem_map, List.mem_range] at ho
      obtain ⟨k, ⟨j, hj, rfl⟩, rfl⟩ := ho
      exact head_of_clsRun_pos p s (by omega)
  | repCls lo hi hlo =>
      intro pc s caps o ho
      simp only [mmatch] at ho
      split at ho
      · rename_i hr
        simp only [List.mem_map, List.mem_reverse, List.mem_range] at ho
        obtain ⟨k, ⟨j, hj, rfl⟩, rfl⟩ := ho
        have : 1 ≤ min (clsRun p s) hi := by omega
        exact head_of_clsRun_pos p s (le_trans this (min_le_left _ _))
      · simp at ho
  | seq a b hab ih =>
      intro pc s caps o ho
      simp only [mmatch, List.mem_flatMap] at ho
      obtain ⟨o1, h1, _⟩ := ho
      exact ih pc s caps o1 h1
  | grp i a hia ih =>
      intro pc s caps o ho
      simp only [mmatch, List.mem_map] at ho
      obtain ⟨o1, h1, rfl⟩ := ho
      exact ih pc s caps o1 h1
  | alt a b hsa hsb iha ihb =>
      intro pc s caps o ho
      rcases List.mem_append.1 ho with ho | ho
      · exact iha pc s caps o ho
      · exact ihb pc s caps o ho

/-- Syntactic criterion: `re` contains group 1 with body `B`, placed so
that its capture survives to the final outcome (it is not shadowed by a
later group). -/
inductive EndsGrp (i : Nat) (B : RE) : RE → Prop
  | base : EndsGrp i B (.grp i B)
  | seqR (A re : RE) (h : EndsGrp i B re) : EndsGrp i B (.seq A re)
  | seqL (re A : RE) (h : EndsGrp i B re) (hA : noGroups A = true) : EndsGrp i B (.seq re A)

lemma endsGrp_cap {B : RE} {p : Char → Bool} {re : RE} (hE : EndsGrp 1 B re)
    (hm : minOne B = true) (hs : StartsClsP p B) :
    ∀ (pc : Option Char) (s : List Char) (caps) (o : MOut), o ∈ mmatch re pc s caps →
    ∃ c v, o.caps.lookup 1 = some (c :: v) ∧ p c = true := by
  induction hE with
  | base =>
      intro pc s caps o ho
      simp only [mmatch, List.mem_map] at ho
      obtain ⟨o1, h1, rfl⟩ := ho
      have hlt := mmatch_rest_lt B hm pc s caps o1 h1
      obtain ⟨c, t, rfl, hc⟩ := startsClsP_head hs pc s caps o1 h1
      rcases kk : (c :: t).length - o1.rest.length with _ | k2
      · omega
      · have htake : List.take ((c :: t).length - o1.rest.length) (c :: t) = c :: List.take k2 t := by
          rw [kk]
          rfl
        exact ⟨c, List.take k2 t, by simp [List.lookup, htake], hc⟩
  | seqR A re' h ih =>
      intro pc s caps o ho
      simp only [mmatch, List.mem_flatMap] at ho
      obtain ⟨o1, _, h2⟩ := ho
      exact ih _ _ _ _ h2
  | seqL re' A h hA ih =>
      intro pc s caps o ho
      simp only [mmatch, List.mem_flatMap] at ho
      obtain ⟨o1, h1, h2⟩ := ho
      obtain ⟨c, v, hcv, hc⟩ := ih _ _ _ _ h1
      have hcaps := noGroups_caps A hA _ _ _ _ h2
      exact ⟨c, v, hcaps ▸ hcv, hc⟩

lemma tryAt_caps_pred {re : RE} {pc : Option Char} {s : List Char} {m : ExecRes}
    (Q : List (Nat × List Char) → Prop)
    (hQ : ∀ o, o ∈ mmatch re pc s [] → Q o.caps) (h : tryAt re pc s = some m) : Q m.caps := by
  simp only [tryAt] at h
  rcases hl : mmatch re pc s [] with _ | ⟨o, rest⟩
  · rw [hl] at h
    simp at h
  · rw [hl] at h
    simp only [List.head?] at h
    injection h with h'
    have : Q o.caps := hQ o (by rw [hl]; exact List.mem_cons_self _ _)
    rw [← h']
    exact this

lemma execAux_caps_pred (re : RE) (Q : List (Nat × List Char) → Prop)
    (hQ : ∀ (pc : Option Char) (s : List Char) (o : MOut), o ∈ mmatch re pc s [] → Q o.caps) :
    ∀ (pc : Option Char) (s : List Char) (m : ExecRes), execAux re pc s = some m → Q m.caps := by
  intro pc s
  induction s generalizing pc with
  | nil =>
      intro m h
      exact tryAt_caps_pred Q (hQ pc []) h
  | cons c t ih =>
      intro m h
      simp only [execAux] at h
      split at h
      · rename_i r hr
        injection h with h'
        rw [← h']
        exact tryAt_caps_pred Q (hQ pc (c :: t)) hr
      · exact ih _ _ h

/-- A match of a pattern whose surviving group 1 has a consuming body
starting with class `p` captures a nonempty string whose first
character is in `p`. -/
lemma reExec_cap1 {B : RE} {p : Char → Bool} {re : RE} {s : List Char} {m : ExecRes}
    (hE : EndsGrp 1 B re) (hm : minOne B = true) (hs : StartsClsP p B)
    (h : reExec re s = some m) : ∃ c v, capGet m 1 = c :: v ∧ p c = true := by
  have := execAux_caps_pred re
    (fun caps => ∃ c v, caps.lookup 1 = some (c :: v) ∧ p c = true)
    (fun pc s' o ho => endsGrp_cap hE hm hs pc s' [] o ho) none s m h
  obtain ⟨c, v, hcv, hc⟩ := this
  exact ⟨c, v, by simp [capGet, hcv], hc⟩

/-! ## Field-extractor well-formedness lemmas -/

lemma isSpaceJS_cases (c : Char) (h : isSpaceJS c = true) :
    c.toNat = 32 ∨ c.toNat = 9 ∨ c.toNat = 10 ∨ c.toNat = 13 ∨ c.toNat = 11 ∨
    c.toNat = 12 ∨ c.toNat = 160 := by
  rcases (by simpa [isSpaceJS] using h :
      (((((c = ' ' ∨ c = '\t') ∨ c = '\n') ∨ c = '\r') ∨ c = '\x0b') ∨ c = '\x0c') ∨
        c = '\u00A0') with ((((((rfl | rfl) | rfl) | rfl) | rfl) | rfl) | rfl) <;> simp

lemma isDigitJS_not_space (c : Char) (h : isDigitJS c = true) : isSpaceJS c = false := by
  have hn : 48 ≤ c.toNat ∧ c.toNat ≤ 57 := by simpa [isDigitJS] using h
  rcases hs : isSpaceJS c with _ | _
  · rfl
  · rcases isSpaceJS_cases c hs with h1 | h1 | h1 | h1 | h1 | h1 | h1 <;> omega

lemma isWordChar_not_space (c : Char) (h : isWordChar c = true) : isSpaceJS c = false := by
  have hn : (65 ≤ c.toNat ∧ c.toNat ≤ 90) ∨ (97 ≤ c.toNat ∧ c.toNat ≤ 122) ∨
      (48 ≤ c.toNat ∧ c.toNat ≤ 57) ∨ c = '_' := by
    simpa [isWordChar, isDigitJS, or_assoc] using h
  rcases hs : isSpaceJS c with _ | _
  · rfl
  · have h95 : c = '_' → c.toNat = 95 := by rintro rfl; simp
    rcases isSpaceJS_cases c hs with h1 | h1 | h1 | h1 | h1 | h1 | h1 <;>
      rcases hn with ⟨h2, h3⟩ | ⟨h2, h3⟩ | ⟨h2, h3⟩ | h2 <;>
        first
        | omega
        | (have h4 := h95 h2; omega)

lemma addrBody_minOne : minOne addrBody = true := rfl

lemma addrBody_starts : StartsClsP isDigitJS addrBody := .seq _ _ _ (.plusCls _)

lemma addressRe_endsGrp : EndsGrp 1 addrBody addressRe := .base

/-- A successfully extracted address is a nonempty string (the match
starts with a street-number digit, which trimming keeps). -/
lemma extractAddress_pos (text a : List Char) (h : extractAddress text = some a) :
    0 < a.length := by
  simp only [extractAddress] at h
  rcases hm : reExec addressRe text with _ | m <;> rw [hm] at h
  · exact absurd h (by simp)
  · injection h with h'
    obtain ⟨c, v, hcv, hc⟩ := reExec_cap1 addressRe_endsGrp addrBody_minOne addrBody_starts hm
    rw [← h', hcv]
    exact jsTrim_head_pos c v (isDigitJS_not_space c hc)

lemma availDateBodyV1_minOne : minOne availDateBodyV1 = true := rfl

lemma availDateBodyV1_starts : StartsClsP isWordChar availDateBodyV1 :=
  .alt _ _ _ (.seq _ _ _ (.plusCls _)) (.seq _ _ _ (.plusCls _))

lemma availDateReV1_endsGrp : EndsGrp 1 availDateBodyV1 availDateReV1 :=
  .seqR _ _ (.seqR _ _ (.seqL _ _ .base rfl))

/-- The v1 availability string is never empty. -/
lemma extractAvailV1_pos (text : List Char) : 0 < (extractAvailV1 text).length := by
  simp only [extractAvailV1]
  split
  · decide
  · rcases hm : reExec availDateReV1 text with _ | m
    · simp [hm, strContact, L]
    · obtain ⟨c, v, hcv, _⟩ :=
        reExec_cap1 availDateReV1_endsGrp availDateBodyV1_minOne availDateBodyV1_starts hm
      simp [hm, hcv]

lemma availBodyV2a_minOne : minOne availBodyV2a = true := rfl

lemma availBodyV2a_starts : StartsClsP isDigitJS availBodyV2a :=
  .seq _ _ _ (.repCls _ _ _ (by omega))

lemma availReV2a_endsGrp : EndsGrp 1 availBodyV2a availReV2a :=
  .seqR _ _ (.seqR _ _ (.seqL _ _ .base rfl))

/-- The first-character class of the case-insensitive literal `Now`. -/
def pNowChar : Char → Bool := fun x => x == 'N'.toLower || x == 'N'.toUpper

lemma availBodyV2b_minOne : minOne availBodyV2b = true := rfl

lemma availBodyV2b_starts : StartsClsP pNowChar availBodyV2b := .seq _ _ _ (.cls _)

lemma availReV2b_endsGrp : EndsGrp 1 availBodyV2b availReV2b :=
  .seqR _ _ (.seqR _ _ (.seqL _ _ .base rfl))

lemma pNowChar_not_space (c : Char) (h : pNowChar c = true) : isSpaceJS c = false := by
  rcases (by simpa [pNowChar] using h : c = 'N'.toLower ∨ c = 'N'.toUpper) with rfl | rfl <;>
    decide

lemma availBodyV2c_minOne : minOne availBodyV2c = true := rfl

lemma availBodyV2c_starts : StartsClsP isWordChar availBodyV2c := .seq _ _ _ (.plusCls _)

lemma availReV2c_endsGrp : EndsGrp 1 availBodyV2c availReV2c :=
  .seqR _ _ (.seqR _ _ (.seqL _ _ .base rfl))

/-- The v2 availability string is never empty (every capture starts
with a non-whitespace character, which trimming keeps). -/
lemma extractAvailV2_pos (text : List Char) : 0 < (extractAvailV2 text).length := by
  simp only [extractAvailV2]
  rcases ha : reExec availReV2a text with _ | m
  · rcases hb : reExec availReV2b text with _ | m
    · rcases hc : reExec availReV2c text with _ | m
      · simp [ha, hb, hc, orElseOpt]
        decide
      · simp only [ha, hb, hc, orElseOpt]
        obtain ⟨c, v, hcv, hcc⟩ :=
          reExec_cap1 availReV2c_endsGrp availBodyV2c_minOne availBodyV2c_starts hc
        rw [hcv]
        exact jsTrim_head_pos c v (isWordChar_not_space c hcc)
    · simp only [ha, hb, orElseOpt]
      obtain ⟨c, v, hcv, hcc⟩ :=
        reExec_cap1 availReV2b_endsGrp availBodyV2b_minOne availBodyV2b_starts hb
      rw [hcv]
      exact jsTrim_head_pos c v (pNowChar_not_space c hcc)
  · simp only [ha, orElseOpt]
    obtain ⟨c, v, hcv, hcc⟩ :=
      reExec_cap1 availReV2a_endsGrp availBodyV2a_minOne availBodyV2a_starts ha
    rw [hcv]
    exact jsTrim_head_pos c v (isDigitJS_not_space c hcc)

lemma extractRentV1_nonneg (text : List Char) (q : ℚ) (h : extractRentV1 text = some q) :
    0 ≤ q := by
  simp only [extractRentV1] at h
  rcases hm : reExec rentReV1 text with _ | m <;> rw [hm] at h
  · exact absurd h (by simp)
  · exact jsParseFloat_nonneg _ _ h

lemma extractSqftV1_nonneg (text : List Char) (q : ℚ) (h : extractSqftV1 text = some q) :
    0 ≤ q := by
  simp only [extractSqftV1] at h
  rcases hm : reExec sqftTextRe text with _ | m <;> rw [hm] at h
  · exact absurd h (by simp)
  · exact jsParseInt_nonneg _ _ h

lemma extractRentV2_nonneg (text : List Char) (q : ℚ) (h : extractRentV2 text = some q) :
    0 ≤ q := by
  simp only [extractRentV2] at h
  rcases hm : reExec rentReV2 text with _ | m <;> rw [hm] at h
  · exact absurd h (by simp)
  · exact jsParseFloat_nonneg _ _ h

lemma extractSqftV2_nonneg (text : List Char) (q : ℚ) (h : extractSqftV2 text = some q) :
    0 ≤ q := by
  simp only [extractSqftV2] at h
  rcases hm : orElseOpt (reExec sqftReV2 text) (reExec sqftTextRe text) with _ | m <;>
    rw [hm] at h
  · exact absurd h (by simp)
  · exact jsParseInt_nonneg _ _ h

lemma extractRentPerSFV2_nonneg (text : List Char) (q : ℚ)
    (h : extractRentPerSFV2 text = some q) : 0 ≤ q := by
  simp only [extractRentPerSFV2] at h
  rcases hm : orElseOpt (reExec rentSFReV2a text) (reExec rentSFReV2b text) with _ | m <;>
    rw [hm] at h
  · exact absurd h (by simp)
  · exact jsParseFloat_nonneg _ _ h

lemma extractRentPerSFV1_nonneg (text : List Char) (rent sqft : Option ℚ)
    (hr : ∀ q, rent = some q → 0 ≤ q) (hs : ∀ q, sqft = some q → 0 ≤ q) (q : ℚ)
    (h : extractRentPerSFV1 text rent sqft = some q) : 0 ≤ q := by
  simp only [extractRentPerSFV1] at h
  rcases hm : reExec rentSFReV1 text with _ | m <;> rw [hm] at h
  · rcases rent with _ | r
    · simp at h
    · rcases sqft with _ | s
      · simp at h
      · dsimp only at h
        split at h
        · injection h with h'
          refine h' ▸ jsToFixed2_nonneg _ ?_
          exact mul_nonneg (div_nonneg (hr r rfl) (hs s rfl)) (by norm_num)
        · exact absurd h (by simp)
  · exact jsParseFloat_nonneg _ _ h

lemma synthTitle_pos (uuid : List Char) : 0 < (synthTitle uuid).length := by
  simp [synthTitle, strListingTitle, L]

/-- The v1 title is never empty. -/
lemma extractTitleV1_pos (card : Card) (address : Option (List Char)) (uuid : List Char) :
    0 < (extractTitleV1 card address uuid).length := by
  simp only [extractTitleV1]
  by_cases h1 : truthyStr (titleCandV1 card) = true
  · simp only [h1, if_true]
    exact truthyStr_optStr _ h1
  · have h1' : truthyStr (titleCandV1 card) = false := by simpa using h1
    simp only [h1']
    by_cases h2 : truthyStr address = true
    · simp only [h2, if_true]
      exact truthyStr_optStr _ h2
    · have h2' : truthyStr address = false := by simpa using h2
      simp only [h2']
      simp only [Bool.false_eq_true, if_false]
      exact synthTitle_pos uuid

lemma firstHeadingV2_pos : ∀ (hs : List (List Char)) (t : List Char),
    firstHeadingV2 hs = some t → 0 < t.length := by
  intro hs
  induction hs with
  | nil => intro t h; simp [firstHeadingV2] at h
  | cons x xs ih =>
      intro t h
      simp only [firstHeadingV2] at h
      split at h
      · rename_i hcond
        injection h with h'
        have h5 : 5 < (jsTrim x).length := by
          have hc : ((5 < (jsTrim x).length ∧ (jsTrim x).length < 300) ∧
              reTest0 titleBoilerReV2 (jsTrim x) = false) := by simpa using hcond
          exact hc.1.1
        rw [← h']
        omega
      · exact ih t h

/-- The v2 title is never empty. -/
lemma extractTitleV2_pos (d : DetailDoc) (uuid : List Char) :
    0 < (extractTitleV2 d uuid).length := by
  simp only [extractTitleV2]
  rcases hf : firstHeadingV2 d.headings with _ | t
  · rcases htt : d.titleTag with _ | tt
    · exact synthTitle_pos uuid
    · dsimp only
      split
      · exact synthTitle_pos uuid
      · rename_i hne
        rcases he : jsTrim tt with _ | ⟨c, v⟩
        · simp [he] at hne
        · simp [he]
  · exact firstHeadingV2_pos d.headings t hf

lemma fallbackImgsV2_nodup : ∀ (imgs : List ImgEl) (acc : List (List Char)),
    acc.Nodup → (fallbackImgsV2 imgs acc).Nodup := by
  intro imgs
  induction imgs with
  | nil => intro acc h; exact h
  | cons i rest ih =>
      intro acc h
      simp only [fallbackImgsV2]
      split
      · rename_i hc
        refine ih _ ?_
        rw [List.nodup_append]
        refine ⟨h, List.nodup_singleton _, ?_⟩
        intro a ha ha'
        have : a = optStr (jsAttrOr i.src i.dataSrc) := by simpa using ha'
        subst this
        have hmem : memStr (optStr (jsAttrOr i.src i.dataSrc)) acc = false := by
          rcases hmm : memStr (optStr (jsAttrOr i.src i.dataSrc)) acc with _ | _
          · rfl
          · simp [hmm] at hc
        exact memStr_false _ _ hmem ha
      · exact ih acc h

lemma fallbackImgsV2_pos : ∀ (imgs : List ImgEl) (acc : List (List Char)),
    (∀ u ∈ acc, 0 < u.length) → ∀ u ∈ fallbackImgsV2 imgs acc, 0 < u.length := by
  intro imgs
  induction imgs with
  | nil => intro acc h; exact h
  | cons i rest ih =>
      intro acc h
      simp only [fallbackImgsV2]
      split
      · rename_i hc
        refine ih _ ?_
        intro u hu
        rcases List.mem_append.1 hu with hu | hu
        · exact h u hu
        · have : u = optStr (jsAttrOr i.src i.dataSrc) := by simpa using hu
          subst this
          have ht : truthyStr (jsAttrOr i.src i.dataSrc) = true := by
            rcases htt : truthyStr (jsAttrOr i.src i.dataSrc) with _ | _
            · simp [htt] at hc
            · rfl
          exact truthyStr_optStr _ ht
      · exact ih acc h

lemma extractImagesV2_nodup (d : DetailDoc) : (extractImagesV2 d).Nodup := by
  simp only [extractImagesV2]
  split
  · exact fallbackImgsV2_nodup _ _ List.nodup_nil
  · exact nodup_dedupFS _ _

lemma extractImagesV2_pos (d : DetailDoc) : ∀ u ∈ extractImagesV2 d, 0 < u.length := by
  simp only [extractImagesV2]
  split
  · exact fallbackImgsV2_pos _ _ (by simp)
  · intro u hu
    have hm := ((mem_dedupFS _ _ _).1 hu).1
    simp only [List.mem_filterMap] at hm
    obtain ⟨srcO, _, hf⟩ := hm
    split at hf
    · rename_i hc
      injection hf with hf'
      have ht : truthyStr srcO = true := by
        rcases htt : truthyStr srcO with _ | _
        · simp [htt] at hc
        · rfl
      exact hf' ▸ truthyStr_optStr _ ht
    · exact absurd hf (by simp)

lemma extractImageV1_pos (card : Card) (s : List Char) (h : extractImageV1 card = some s) :
    0 < s.length := by
  simp only [extractImageV1] at h
  rcases hfi : card.firstImg with _ | img <;> rw [hfi] at h
  · simp at h
  · dsimp only at h
    split at h
    · rename_i hc
      have ht : truthyStr (jsAttrOr img.src img.dataSrc) = true := by
        rcases htt : truthyStr (jsAttrOr img.src img.dataSrc) with _ | _
        · simp [htt] at hc
        · rfl
      have := truthyStr_optStr _ ht
      rcases hj : jsAttrOr img.src img.dataSrc with _ | v
      · rw [hj] at ht
        simp [truthyStr] at ht
      · rw [hj] at h
        injection h with h'
        subst h'
        rw [hj] at this
        simpa [optStr] using this
    · exact absurd h (by simp)

/-! ## Index-parser lemmas -/

lemma memStr_cons (x u : List Char) (l : List (List Char)) :
    memStr x (u :: l) = (eqStr u x || memStr x l) := rfl

lemma extractListingData_id (card : Card) (uuid : List Char) :
    (extractListingData card uuid).id = uuid := rfl

lemma goListingsV1_inv : ∀ (anchors : List AnchorEl) (seen : List (List Char)),
    (∀ l ∈ goListingsV1 seen anchors, memStr l.id seen = false) ∧
    ((goListingsV1 seen anchors).map (fun l => l.id)).Nodup := by
  intro anchors
  induction anchors with
  | nil => intro seen; simp [goListingsV1]
  | cons a rest ih =>
      intro seen
      simp only [goListingsV1]
      rcases hm : reExec uuidRe a.href with _ | m
      · exact ih seen
      · dsimp only
        split
        · exact ih seen
        · rename_i hseen
          rcases hcard : a.card with _ | c
        
          · constructor
            · intro l hl
              have h1 := (ih (capGet m 1 :: seen)).1 l hl
              rw [memStr_cons] at h1
              exact (Bool.or_eq_false_iff.1 h1).2
            · exact (ih _).2
          · constructor
            · intro l hl
              rcases List.mem_cons.1 hl with rfl | hl
              · rw [extractListingData_id]
                rcases hms : memStr (capGet m 1) seen with _ | _
                · rfl
                · simp [hms] at hseen
              · have h1 := (ih (capGet m 1 :: seen)).1 l hl
                rw [memStr_cons] at h1
                exact (Bool.or_eq_false_iff.1 h1).2
            · rw [List.map_cons, List.nodup_cons]
              constructor
              · intro hmem
                simp only [List.mem_map] at hmem
                obtain ⟨l, hl, hid⟩ := hmem
                have h1 := (ih (capGet m 1 :: seen)).1 l hl
                rw [memStr_cons] at h1
                have hid' : l.id = capGet m 1 := hid
                rw [hid'] at h1
                simp [eqStr] at h1
              · exact (ih _).2

lemma parseIndexPage_ok_uuids (d : IndexDoc) (res : IndexRes)
    (h : parseIndexPage d = .ok res) : res.uuids = dedupFS [] (rawUUIDs d) := by
  simp only [parseIndexPage] at h
  split at h
  · rename_i hempty
    split at h
    · injection h with h'
      have hfil : d.anchors.filter (fun a => jsIncludes a.href detailNeedle) = [] :=
        List.isEmpty_iff.1 hempty
      rw [← h']
      simp [rawUUIDs, hfil, dedupFS]
    · exact absurd h (by simp)
  · injection h with h'
    rw [← h']

lemma parseListings_ok_listings (d : IndexDoc) (res : ParseV1Res)
    (h : parseListings d = .ok res) :
    res.listings = [] ∨
      res.listings = goListingsV1 [] (d.anchors.filter (fun a => jsIncludes a.href detailNeedle)) := by
  simp only [parseListings] at h
  split at h
  · split at h
    · injection h with h'
      rw [← h']
      exact Or.inl rfl
    · exact absurd h (by simp)
  · injection h with h'
    rw [← h']
    exact Or.inr rfl

/-! ## Validator lemmas -/

lemma missingRent_cond (rent : Option ℚ) :
    ((!truthyNum rent && decide (rent ≠ some 0)) = true) ↔ rent = none := by
  rcases rent with _ | q
  · simp [truthyNum]
  · by_cases hq : q = 0
    · subst hq
      simp [truthyNum]
    · simp [truthyNum, hq]

lemma mem_if_singleton {γ : Type} {c : Prop} [Decidable c] {x w : γ}
    (h : w ∈ if c then [x] else []) : w = x ∧ c := by
  split at h
  · rename_i hc
    simp only [List.mem_singleton] at h
    exact ⟨h, hc⟩
  · simp at h

lemma lid_recWarnings1V2 (l : ListingV2) (w : Warning) (h : w ∈ V2.recWarnings1 l) :
    w.lid = l.id := by
  simp only [V2.recWarnings1, List.append_assoc, List.mem_append] at h
  rcases h with h | h | h | h <;>
    · have := (mem_if_singleton h).1
      subst this
      rfl

lemma lid_recWarnings2V2 (l : ListingV2) (w : Warning) (h : w ∈ V2.recWarnings2 l) :
    w.lid = l.id := by
  simp only [V2.recWarnings2, List.mem_append] at h
  rcases h with h | h
  · rcases hr : l.rent with _ | q <;> rw [hr] at h
    · simp at h
    · dsimp only at h
      split at h
      · simp only [List.mem_singleton] at h
        subst h
        rfl
      · simp at h
  · rcases hs : l.sqft with _ | q <;> rw [hs] at h
    · simp at h
    · dsimp only at h
      split at h
      · simp only [List.mem_singleton] at h
        subst h
        rfl
      · simp at h

lemma filter_flatMap_of_unique (f : ListingV2 → List Warning)
    (hf : ∀ x w, w ∈ f x → w.lid = x.id) :
    ∀ (l : List ListingV2) (r : ListingV2), r ∈ l → l.count r = 1 →
    (∀ r' ∈ l, r' ≠ r → eqStr r'.id r.id = false) →
    (l.flatMap f).filter (fun w => eqStr w.lid r.id) =
      (f r).filter (fun w => eqStr w.lid r.id) := by
  intro l
  induction l with
  | nil => intro r hr _ _; simp at hr
  | cons x xs ih =>
      intro r hr hcnt huniq
      simp only [List.flatMap_cons, List.filter_append]
      by_cases hx : x = r
      · subst hx
        have hc1 : (x :: xs).count x = xs.count x + 1 := List.count_cons_self x xs
        have hc0 : xs.count x = 0 := by omega
        have hnotin : x ∉ xs := List.count_eq_zero.1 hc0
        have hnil : (xs.flatMap f).filter (fun w => eqStr w.lid x.id) = [] := by
          rw [List.filter_eq_nil_iff]
          intro w hw
          obtain ⟨y, hy, hwy⟩ := List.mem_flatMap.1 hw
          have hyne : y ≠ x := fun e => hnotin (e ▸ hy)
          have hid := huniq y (List.mem_cons_of_mem _ hy) hyne
          rw [hf y w hwy]
          simp [hid]
        rw [hnil, List.append_nil]
      · have hr' : r ∈ xs := by
          rcases List.mem_cons.1 hr with rfl | h
          · exact absurd rfl hx
          · exact h
        have hcnt' : xs.count r = 1 := by
          have := List.count_cons_of_ne (fun e => hx e.symm) xs
          omega
        have hxnil : (f x).filter (fun w => eqStr w.lid r.id) = [] := by
          rw [List.filter_eq_nil_iff]
          intro w hw
          have hid := huniq x (List.mem_cons_self _ _) hx
          rw [hf x w hw]
          simp [hid]
        rw [hxnil, List.nil_append]
        exact ih r hr' hcnt' (fun r' h' hne => huniq r' (List.mem_cons_of_mem _ h') hne)

/-! ## Fingerprint lemmas -/

/-- A string is plain when no character of it needs a JSON escape. -/
def plainStr (s : List Char) : Bool := s.all plainChar

lemma escChar_plain (c : Char) (h : plainChar c = true) : escChar c = [c] := by
  have hp : ¬((c = '"' ∨ c = '\\') ∨ c.toNat < 32) := by
    simpa [plainChar] using h
  push_neg at hp
  obtain ⟨⟨h1, h2⟩, h3⟩ := hp
  have h3' : ¬(c.toNat < 32) := by omega
  have hn : ¬(c = '\n') := fun e => by rw [e] at h3; exact absurd h3 (by decide)
  have hr : ¬(c = '\r') := fun e => by rw [e] at h3; exact absurd h3 (by decide)
  have ht : ¬(c = '\t') := fun e => by rw [e] at h3; exact absurd h3 (by decide)
  have hb : ¬(c = '\x08') := fun e => by rw [e] at h3; exact absurd h3 (by decide)
  have hf : ¬(c = '\x0c') := fun e => by rw [e] at h3; exact absurd h3 (by decide)
  simp [escChar, h1, h2, h3', hn, hr, ht, hb, hf]

lemma escStr_plain (s : List Char) (h : plainStr s = true) : escStr s = s := by
  induction s with
  | nil => rfl
  | cons c t ih =>
      have hc : plainChar c = true ∧ plainStr t = true := by
        simpa [plainStr] using h
      simp only [escStr, List.flatMap_cons]
      rw [escChar_plain c hc.1]
      have := ih hc.2
      simp only [escStr] at this
      rw [this]
      rfl

lemma jsonStr_inj_plain (a b : List Char) (ha : plainStr a = true) (hb : plainStr b = true)
    (h : jsonStr a = jsonStr b) : a = b := by
  simp only [jsonStr] at h
  injection h with _ h2
  have := List.append_cancel_right h2
  rw [escStr_plain a ha, escStr_plain b hb] at this
  exact this

/-- Changing only the title of a record changes its serialization
(provided neither title needs escaping). -/
lemma jsonListing_title_ne (l : ListingV2) (t : List Char)
    (hpt : plainStr t = true) (hpl : plainStr l.title = true) (hne : t ≠ l.title) :
    jsonListing { l with title := t } ≠ jsonListing l := by
  intro he
  simp only [jsonListing] at he
  have hpre : jsonPre { l with title := t } = jsonPre l := rfl
  rw [hpre] at he
  have h1 := List.append_cancel_left he
  have h2 := List.append_cancel_right h1
  exact hne (jsonStr_inj_plain _ _ hpt hpl h2)

/-! ## Missing-rent warning membership -/

lemma missingRent_mem_rec1V2 (l : ListingV2) (i : List Char) :
    Warning.missingRent i ∈ V2.recWarnings1 l ↔ i = l.id ∧ l.rent = none := by
  simp only [V2.recWarnings1, List.append_assoc, List.mem_append]
  constructor
  · rintro (h | h | h | h)
    · have := (mem_if_singleton h).1
      simp at this
    · obtain ⟨he, hc⟩ := mem_if_singleton h
      injection he with he'
      exact ⟨he', (missingRent_cond l.rent).1 hc⟩
    · have := (mem_if_singleton h).1
      simp at this
    · have := (mem_if_singleton h).1
      simp at this
  · rintro ⟨rfl, hrent⟩
    refine Or.inr (Or.inl ?_)
    rw [if_pos ((missingRent_cond l.rent).2 hrent)]
    exact List.mem_singleton_self _

lemma missingRent_notmem_rec2V2 (l : ListingV2) (i : List Char) :
    Warning.missingRent i ∉ V2.recWarnings2 l := by
  intro h
  have := lid_recWarnings2V2 l _ h
  simp only [V2.recWarnings2, List.mem_append] at h
  rcases h with h | h
  · rcases hr : l.rent with _ | q <;> rw [hr] at h
    · simp at h
    · dsimp only at h
      split at h
      · simp only [List.mem_singleton] at h
        exact Warning.noConfusion h
      · simp at h
  · rcases hs : l.sqft with _ | q <;> rw [hs] at h
    · simp at h
    · dsimp only at h
      split at h
      · simp only [List.mem_singleton] at h
        exact Warning.noConfusion h
      · simp at h

lemma missingRent_mem_warningsV2 (listings : List ListingV2) (i : List Char) :
    Warning.missingRent i ∈ (V2.validateListings listings).warnings ↔
      ∃ r ∈ listings, r.id = i ∧ r.rent = none := by
  show Warning.missingRent i ∈
      listings.flatMap V2.recWarnings1 ++ listings.flatMap V2.recWarnings2 ↔ _
  rw [List.mem_append]
  constructor
  · rintro (h | h)
    · obtain ⟨r, hr, hw⟩ := List.mem_flatMap.1 h
      obtain ⟨hi, hrent⟩ := (missingRent_mem_rec1V2 r i).1 hw
      exact ⟨r, hr, hi.symm, hrent⟩
    · obtain ⟨r, hr, hw⟩ := List.mem_flatMap.1 h
      exact absurd hw (missingRent_notmem_rec2V2 r i)
  · rintro ⟨r, hr, hi, hrent⟩
    refine Or.inl (List.mem_flatMap.2 ⟨r, hr, ?_⟩)
    exact (missingRent_mem_rec1V2 r i).2 ⟨hi.symm, hrent⟩

/-- The analogous v1 statement. -/
lemma missingRent_cond_mem_rec1V1 (l : ListingV1) (i : List Char) :
    Warning.missingRent i ∈ V1.recWarnings1 l ↔ i = l.id ∧ l.rent = none := by
  simp only [V1.recWarnings1, List.append_assoc, List.mem_append]
  constructor
  · rintro (h | h | h)
    · have := (mem_if_singleton h).1
      simp at this
    · obtain ⟨he, hc⟩ := mem_if_singleton h
      injection he with he'
      exact ⟨he', (missingRent_cond l.rent).1 hc⟩
    · have := (mem_if_singleton h).1
      simp at this
  · rintro ⟨rfl, hrent⟩
    refine Or.inr (Or.inl ?_)
    rw [if_pos ((missingRent_cond l.rent).2 hrent)]
    exact List.mem_singleton_self _

lemma missingRent_notmem_rec2V1 (l : ListingV1) (i : List Char) :
    Warning.missingRent i ∉ V1.recWarnings2 l := by
  intro h
  simp only [V1.recWarnings2, List.mem_append] at h
  rcases h with h | h
  · rcases hr : l.rent with _ | q <;> rw [hr] at h
    · simp at h
    · dsimp only at h
      split at h
      · simp only [List.mem_singleton] at h
        exact Warning.noConfusion h
      · simp at h
  · rcases hs : l.sqft with _ | q <;> rw [hs] at h
    · simp at h
    · dsimp only at h
      split at h
      · simp only [List.mem_singleton] at h
        exact Warning.noConfusion h
      · simp at h

lemma missingRent_mem_warningsV1 (listings : List ListingV1) (i : List Char) :
    Warning.missingRent i ∈ (V1.validateListings listings).warnings ↔
      ∃ r ∈ listings, r.id = i ∧ r.rent = none := by
  show Warning.missingRent i ∈
      listings.flatMap V1.recWarnings1 ++ listings.flatMap V1.recWarnings2 ↔ _
  rw [List.mem_append]
  constructor
  · rintro (h | h)
    · obtain ⟨r, hr, hw⟩ := List.mem_flatMap.1 h
      obtain ⟨hi, hrent⟩ := (missingRent_cond_mem_rec1V1 r i).1 hw
      exact ⟨r, hr, hi.symm, hrent⟩
    · obtain ⟨r, hr, hw⟩ := List.mem_flatMap.1 h
      exact absurd hw (missingRent_notmem_rec2V1 r i)
  · rintro ⟨r, hr, hi, hrent⟩
    refine Or.inl (List.mem_flatMap.2 ⟨r, hr, ?_⟩)
    exact (missingRent_cond_mem_rec1V1 r i).2 ⟨hi.symm, hrent⟩

lemma intercalate_singleton (sep x : List Char) : List.intercalate sep [x] = x := by
  simp [List.intercalate]

lemma jsToInt32_emod (z : ℤ) : jsToInt32 z % 4294967296 = z % 4294967296 := by
  simp only [jsToInt32]
  split <;> omega

lemma jsToInt32_range (z : ℤ) : -2147483648 ≤ jsToInt32 z ∧ jsToInt32 z < 2147483648 := by
  simp only [jsToInt32]
  split <;> omega

lemma hashStep_emod (z : ℤ) (c : Char) :
    hashStep z c % 4294967296 = (31 * z + (c.toNat : ℤ)) % 4294967296 := by
  simp only [hashStep]
  have h1 := jsToInt32_emod (z * 32)
  have h2 := jsToInt32_emod (jsToInt32 (z * 32) - z + (c.toNat : ℤ))
  omega

lemma hashStep_range (a : ℤ) (c : Char) :
    -2147483648 ≤ hashStep a c ∧ hashStep a c < 2147483648 := jsToInt32_range _

/-- The classic 31-ary collision: the two-character blocks `Aa` and
`BB` contribute identically to the rolling hash, whatever came
before (`31 * 65 + 97 = 31 * 66 + 66`). -/
lemma collision_pair (z : ℤ) :
    hashStep (hashStep z 'A') 'a' = hashStep (hashStep z 'B') 'B' := by
  have f97 : (('a'.toNat : ℕ) : ℤ) = 97 := by decide
  have f66 : (('B'.toNat : ℕ) : ℤ) = 66 := by decide
  have f65 : (('A'.toNat : ℕ) : ℤ) = 65 := by decide
  have hA := hashStep_emod z 'A'
  have hB := hashStep_emod z 'B'
  rw [f65] at hA
  rw [f66] at hB
  have e1 := hashStep_emod (hashStep z 'A') 'a'
  have e2 := hashStep_emod (hashStep z 'B') 'B'
  rw [f97] at e1
  rw [f66] at e2
  have r1 := hashStep_range (hashStep z 'A') 'a'
  have r2 := hashStep_range (hashStep z 'B') 'B'
  omega

/-- The fingerprint of a singleton record set only depends on the title
through the fold of the hash over its escaped characters. -/
lemma fingerprint_title_congr (l : ListingV2) (t1 t2 : List Char)
    (h : ∀ z : ℤ, (escStr t1).foldl hashStep z = (escStr t2).foldl hashStep z) :
    simpleFingerprint [{ l with title := t1 }] = simpleFingerprint [{ l with title := t2 }] := by
  have hpre : jsonPre { l with title := t1 } = jsonPre { l with title := t2 } := rfl
  have hpost : jsonPost { l with title := t1 } = jsonPost { l with title := t2 } := rfl
  have ht1 : ({ l with title := t1 } : ListingV2).title = t1 := rfl
  have ht2 : ({ l with title := t2 } : ListingV2).title = t2 := rfl
  simp only [simpleFingerprint, simpleHash, jsonListings, List.map_cons, List.map_nil,
    intercalate_singleton, jsonListing, jsonStr, ht1, ht2, hpre, hpost]
  refine congrArg intB36 ?_
  simp only [List.foldl_append, List.foldl_cons, List.foldl_nil, h]

/-! ## Concrete fixtures for witnesses and counterexamples -/

/-- An index page with no anchors whose body reports no vacancies. -/
def docNoVac : IndexDoc :=
  { anchors := [], bodyText := L (r"Sorry - No vacancies found at this time.") }

/-- An index page with no detail anchors and no recognized phrase. -/
def docBroken : IndexDoc :=
  { anchors := [{ href := L (r"/about"), card := none }], bodyText := L (r"Welcome!") }

/-- An index page with two anchors for the same listing identifier. -/
def docDupAnchors : IndexDoc :=
  { anchors :=
      [{ href := L (r"/listings/detail/abc"), card := none },
       { href := L (r"/listings/detail/def0"), card := none },
       { href := L (r"/listings/detail/abc"), card := none }],
    bodyText := [] }

/-- A detail page whose body reads `Available now`. -/
def docAvailNow : DetailDoc :=
  { body := some (L (r"Available now")), galleryImgs := [], allImgs := [],
    headings := [], titleTag := none, descEl := none, paragraphs := [] }

/-- A detail page with rent and square footage present but no
directly-stated per-area rate. -/
def docRent1200 : DetailDoc :=
  { body := some (L (r"RENT $1,200 SQUARE FEET 600")), galleryImgs := [], allImgs := [],
    headings := [], titleTag := none, descEl := none, paragraphs := [] }

/-- The spec's card scenario: `$2,500` and `1,200 SF`, no stated rate. -/
def cardScenario : Card :=
  { text := L (r"$2,500 1,200 SF"), headings := [], detailLinkText := none,
    paragraphs := [], firstImg := none }

/-- A card with a full address. -/
def cardFull : Card :=
  { text := L (r"123 Main St, Charlotte, NC 28202 Available now $1,500 800 SF"),
    headings := [], detailLinkText := none, paragraphs := [], firstImg := none }

/-- A detail page with one CDN gallery image. -/
def docGallery : DetailDoc :=
  { body := some (L (r"RENT $1,200 SQUARE FEET 600")),
    galleryImgs := [{ src := some (L (r"https://images.cdn.appfolio.com/p/1.jpg")), dataSrc := none }],
    allImgs := [], headings := [], titleTag := none, descEl := none, paragraphs := [] }

/-- A record missing address, rent and primary image, with sqft present
and within bounds. -/
def recMissing : ListingV2 :=
  { id := L (r"w1"), title := L (r"T1"), address := none, city := none,
    type := strCommercial, leaseType := none, rent := none, sqft := some 800,
    rentPerSF := none, description := [], available := strContact,
    status := strComingSoon, utilities := none, imageUrl := none, imageUrls := [],
    detailUrl := [], applyUrl := [], lat := none, lng := none }

/-- A record whose title is the hash-colliding block `Aa`. -/
def recHashA : ListingV2 :=
  { id := L (r"i"), title := L (r"Aa"), address := none, city := none,
    type := [], leaseType := none, rent := none, sqft := none,
    rentPerSF := none, description := [], available := [],
    status := [], utilities := none, imageUrl := none, imageUrls := [],
    detailUrl := [], applyUrl := [], lat := none, lng := none }

/-- The same record with the single field `title` changed to `BB`. -/
def recHashB : ListingV2 := { recHashA with title := L (r"BB") }

/-! ## The claims -/

/-- C1: on an index document with zero detail-link anchors, both
versions of the index parser return the no-inventory outcome with an
empty record set when a recognized empty-inventory phrase is present
(and an empty set validates with no errors), and otherwise fail with
the distinct `structureChanged` outcome (not a network failure). -/
theorem claim_C1_empty_inventory :
    ∀ d : IndexDoc, d.anchors.filter (fun a => jsIncludes a.href detailNeedle) = [] →
    (hasNoVacPhrase d.bodyText = true →
      parseListings d = .ok ⟨[], true⟩ ∧ parseIndexPage d = .ok ⟨[], true⟩ ∧
      V1.validateListings [] = ⟨[], [], true⟩ ∧ V2.validateListings [] = ⟨[], [], true⟩) ∧
    (hasNoVacPhrase d.bodyText = false →
      parseListings d = .error .structureChanged ∧
      parseIndexPage d = .error .structureChanged) := by
  intro d h
  have he : (d.anchors.filter (fun a => jsIncludes a.href detailNeedle)).isEmpty = true := by
    rw [h]
    rfl
  constructor
  · intro hv
    refine ⟨?_, ?_, rfl, rfl⟩ <;> simp [parseListings, parseIndexPage, he, hv]
  · intro hv
    constructor <;> simp [parseListings, parseIndexPage, he, hv]

/-- C1 witness: a concrete no-vacancies document parses to the empty
no-inventory outcome, and a concrete unrecognized document fails with
`structureChanged`. -/
theorem claim_C1_witness :
    (parseListings docNoVac = .ok ⟨[], true⟩ ∧ parseIndexPage docNoVac = .ok ⟨[], true⟩ ∧
      V1.validateListings [] = ⟨[], [], true⟩ ∧ V2.validateListings [] = ⟨[], [], true⟩) ∧
    (parseListings docBroken = .error .structureChanged ∧
      parseIndexPage docBroken = .error .structureChanged) :=
  ⟨(claim_C1_empty_inventory docNoVac rfl).1 rfl,
   (claim_C1_empty_inventory docBroken rfl).2 rfl⟩

/-- C2: every field extractor is total and returns a well-typed value
or absence: monetary and area fields are absent or nonnegative numbers,
a present address is a nonempty string, title and availability are
always nonempty, status is one of its two values, image URLs are
deduplicated nonempty strings, and a present primary image URL is
nonempty — in both the card parser and the detail-page parser. -/
theorem claim_C2_extractors_total :
    ∀ (card : Card) (uuid : List Char) (d : DetailDoc) (u2 : List Char),
    ((extractListingData card uuid).rent = none ∨
      ∃ q, (extractListingData card uuid).rent = some q ∧ 0 ≤ q) ∧
    ((extractListingData card uuid).sqft = none ∨
      ∃ q, (extractListingData card uuid).sqft = some q ∧ 0 ≤ q) ∧
    ((extractListingData card uuid).rentPerSF = none ∨
      ∃ q, (extractListingData card uuid).rentPerSF = some q ∧ 0 ≤ q) ∧
    (∀ a, (extractListingData card uuid).address = some a → 0 < a.length) ∧
    (0 < (extractListingData card uuid).title.length) ∧
    (0 < (extractListingData card uuid).available.length) ∧
    ((extractListingData card uuid).status = strAvailableStatus ∨
      (extractListingData card uuid).status = strComingSoon) ∧
    (∀ s, (extractListingData card uuid).imageUrl = some s → 0 < s.length) ∧
    ((parseDetailPage d u2).rent = none ∨
      ∃ q, (parseDetailPage d u2).rent = some q ∧ 0 ≤ q) ∧
    ((parseDetailPage d u2).sqft = none ∨ ∃ q, (parseDetailPage d u2).sqft = some q ∧ 0 ≤ q) ∧
    ((parseDetailPage d u2).rentPerSF = none ∨
      ∃ q, (parseDetailPage d u2).rentPerSF = some q ∧ 0 ≤ q) ∧
    (∀ a, (parseDetailPage d u2).address = some a → 0 < a.length) ∧
    (0 < (parseDetailPage d u2).title.length) ∧
    (0 < (parseDetailPage d u2).available.length) ∧
    ((parseDetailPage d u2).status = strAvailableStatus ∨
      (parseDetailPage d u2).status = strComingSoon) ∧
    ((parseDetailPage d u2).imageUrls.Nodup) ∧
    (∀ u, u ∈ (parseDetailPage d u2).imageUrls → 0 < u.length) ∧
    (∀ s, (parseDetailPage d u2).imageUrl = some s → 0 < s.length) := by
  intro card uuid d u2
  refine ⟨?_, ?_, ?_, ?_, ?_, ?_, ?_, ?_, ?_, ?_, ?_, ?_, ?_, ?_, ?_, ?_, ?_, ?_⟩
  · rcases hr : extractRentV1 card.text with _ | q
    · exact Or.inl hr
    · exact Or.inr ⟨q, hr, extractRentV1_nonneg _ _ hr⟩
  · rcases hs : extractSqftV1 card.text with _ | q
    · exact Or.inl hs
    · exact Or.inr ⟨q, hs, extractSqftV1_nonneg _ _ hs⟩
  · rcases hp : extractRentPerSFV1 card.text (extractRentV1 card.text) (extractSqftV1 card.text)
        with _ | q
    · exact Or.inl hp
    · exact Or.inr ⟨q, hp,
        extractRentPerSFV1_nonneg _ _ _ (fun q h => extractRentV1_nonneg _ q h)
          (fun q h => extractSqftV1_nonneg _ q h) q hp⟩
  · exact fun a ha => extractAddress_pos card.text a ha
  · exact extractTitleV1_pos card (extractAddress card.text) uuid
  · exact extractAvailV1_pos card.text
  · rcases hs : eqStr (extractAvailV1 card.text) strNow with _ | _
    · refine Or.inr ?_
      show (if eqStr (extractAvailV1 card.text) strNow = true then strAvailableStatus
        else strComingSoon) = strComingSoon
      rw [hs]
      simp
    · refine Or.inl ?_
      show (if eqStr (extractAvailV1 card.text) strNow = true then strAvailableStatus
        else strComingSoon) = strAvailableStatus
      rw [hs]
      simp
  · exact fun s h => extractImageV1_pos card s h
  · rcases hr : extractRentV2 (optStr d.body) with _ | q
    · exact Or.inl hr
    · exact Or.inr ⟨q, hr, extractRentV2_nonneg _ _ hr⟩
  · rcases hs : extractSqftV2 (optStr d.body) with _ | q
    · exact Or.inl hs
    · exact Or.inr ⟨q, hs, extractSqftV2_nonneg _ _ hs⟩
  · rcases hp : extractRentPerSFV2 (optStr d.body) with _ | q
    · exact Or.inl hp
    · exact Or.inr ⟨q, hp, extractRentPerSFV2_nonneg _ _ hp⟩
  · exact fun a ha => extractAddress_pos (optStr d.body) a ha
  · exact extractTitleV2_pos d u2
  · exact extractAvailV2_pos (optStr d.body)
  · rcases hs : reTest nowReCI (extractAvailV2 (optStr d.body)) with _ | _
    · refine Or.inr ?_
      show (if reTest nowReCI (extractAvailV2 (optStr d.body)) = true then strAvailableStatus
        else strComingSoon) = strComingSoon
      rw [hs]
      simp
    · refine Or.inl ?_
      show (if reTest nowReCI (extractAvailV2 (optStr d.body)) = true then strAvailableStatus
        else strComingSoon) = strAvailableStatus
      rw [hs]
      simp
  · exact extractImagesV2_nodup d
  · exact fun u hu => extractImagesV2_pos d u hu
  · intro s h
    have h' : (if truthyStr (extractImagesV2 d).head? = true then (extractImagesV2 d).head?
        else none) = some s := h
    split at h'
    · rename_i ht
      rw [h'] at ht
      rcases s with _ | ⟨c, v⟩
      · simp [truthyStr] at ht
      · simp
    · exact absurd h' (by simp)

/-- C2 witness: on concrete documents, a present address is nonempty
and a collected gallery image URL is nonempty. -/
theorem claim_C2_witness :
    0 < (L (r"123 Main St, Charlotte, NC 28202")).length ∧
    0 < (L (r"https://images.cdn.appfolio.com/p/1.jpg")).length := by
  obtain ⟨_, _, _, haddr, _, _, _, _, _, _, _, _, _, _, _, _, himgs, _⟩ :=
    claim_C2_extractors_total cardFull (L (r"u1")) docGallery (L (r"u2"))
  exact ⟨haddr _ (by decide), himgs _ (by decide)⟩

/-- C3 (amended): `status` is a pure two-valued function of the
extracted availability in both parsers; in the card parser it is
`available` iff availability equals the exact token `Now`, while in the
detail-page parser it is `available` iff availability merely contains
`now` case-insensitively (`/now/i`). -/
theorem claim_C3_status_from_availability :
    ∀ (card : Card) (uuid : List Char) (d : DetailDoc) (u2 : List Char),
    ((extractListingData card uuid).status = strAvailableStatus ↔
      eqStr (extractListingData card uuid).available strNow = true) ∧
    ((parseDetailPage d u2).status = strAvailableStatus ↔
      reTest nowReCI (parseDetailPage d u2).available = true) ∧
    ((extractListingData card uuid).status = strAvailableStatus ∨
      (extractListingData card uuid).status = strComingSoon) ∧
    ((parseDetailPage d u2).status = strAvailableStatus ∨
      (parseDetailPage d u2).status = strComingSoon) := by
  intro card uuid d u2
  have hav1 : (extractListingData card uuid).available = extractAvailV1 card.text := rfl
  have hav2 : (parseDetailPage d u2).available = extractAvailV2 (optStr d.body) := rfl
  refine ⟨?_, ?_, ?_, ?_⟩
  · rcases hs : eqStr (extractAvailV1 card.text) strNow with _ | _
    · have hstatus : (extractListingData card uuid).status = strComingSoon := by
        show (if eqStr (extractAvailV1 card.text) strNow = true then strAvailableStatus
          else strComingSoon) = strComingSoon
        rw [hs]
        simp
      rw [hstatus, hav1, hs]
      constructor
      · intro h
        exact absurd h (by decide)
      · intro h
        exact absurd h (by simp)
    · have hstatus : (extractListingData card uuid).status = strAvailableStatus := by
        show (if eqStr (extractAvailV1 card.text) strNow = true then strAvailableStatus
          else strComingSoon) = strAvailableStatus
        rw [hs]
        simp
      rw [hstatus, hav1, hs]
      simp
  · rcases hs : reTest nowReCI (extractAvailV2 (optStr d.body)) with _ | _
    · have hstatus : (parseDetailPage d u2).status = strComingSoon := by
        show (if reTest nowReCI (extractAvailV2 (optStr d.body)) = true then strAvailableStatus
          else strComingSoon) = strComingSoon
        rw [hs]
        simp
      rw [hstatus, hav2, hs]
      constructor
      · intro h
        exact absurd h (by decide)
      · intro h
        exact absurd h (by simp)
    · have hstatus : (parseDetailPage d u2).status = strAvailableStatus := by
        show (if reTest nowReCI (extractAvailV2 (optStr d.body)) = true then strAvailableStatus
          else strComingSoon) = strAvailableStatus
        rw [hs]
        simp
      rw [hstatus, hav2, hs]
      simp
  · rcases hs : eqStr (extractAvailV1 card.text) strNow with _ | _
    · refine Or.inr ?_
      show (if eqStr (extractAvailV1 card.text) strNow = true then strAvailableStatus
        else strComingSoon) = strComingSoon
      rw [hs]
      simp
    · refine Or.inl ?_
      show (if eqStr (extractAvailV1 card.text) strNow = true then strAvailableStatus
        else strComingSoon) = strAvailableStatus
      rw [hs]
      simp
  · rcases hs : reTest nowReCI (extractAvailV2 (optStr d.body)) with _ | _
    · refine Or.inr ?_
      show (if reTest nowReCI (extractAvailV2 (optStr d.body)) = true then strAvailableStatus
        else strComingSoon) = strComingSoon
      rw [hs]
      simp
    · refine Or.inl ?_
      show (if reTest nowReCI (extractAvailV2 (optStr d.body)) = true then strAvailableStatus
        else strComingSoon) = strAvailableStatus
      rw [hs]
      simp

/-- C3 counterexample: on a detail page reading `Available now`, the
extracted availability is the string `now`, which is not the token
`Now`, yet the derived status is `available` — refuting the claim that
status is `available` iff availability equals `Now`. -/
theorem claim_C3_counterexample :
    (parseDetailPage docAvailNow (L (r"u1"))).status = strAvailableStatus ∧
    (parseDetailPage docAvailNow (L (r"u1"))).available = L (r"now") ∧
    eqStr (parseDetailPage docAvailNow (L (r"u1"))).available strNow = false :=
  ⟨by decide, by decide, by decide⟩

/-- C4 (amended): a directly-stated per-area rate is used verbatim and
never overwritten in both parsers; the card parser derives
`round(rent / sqft * 12, 2)` when no rate is stated and rent and sqft
are both present and nonzero; the detail-page parser never derives —
with no stated rate its `rentPerSF` is null even when rent and sqft are
present. -/
theorem claim_C4_rent_per_area :
    ∀ (card : Card) (uuid : List Char) (d : DetailDoc) (u2 : List Char),
    (reExec rentSFReV1 card.text = none →
      ∀ r s, (extractListingData card uuid).rent = some r →
        (extractListingData card uuid).sqft = some s → r ≠ 0 → s ≠ 0 →
        (extractListingData card uuid).rentPerSF = some (jsToFixed2 (r / s * 12))) ∧
    (∀ m, reExec rentSFReV1 card.text = some m →
      (extractListingData card uuid).rentPerSF = jsParseFloat (capGet m 1)) ∧
    (orElseOpt (reExec rentSFReV2a (optStr d.body)) (reExec rentSFReV2b (optStr d.body)) = none →
      (parseDetailPage d u2).rentPerSF = none) ∧
    (∀ m, orElseOpt (reExec rentSFReV2a (optStr d.body)) (reExec rentSFReV2b (optStr d.body)) =
        some m →
      (parseDetailPage d u2).rentPerSF = jsParseFloat (removeComma (capGet m 1))) := by
  intro card uuid d u2
  refine ⟨?_, ?_, ?_, ?_⟩
  · intro hnone r s hr hs hr0 hs0
    have hr' : extractRentV1 card.text = some r := hr
    have hs' : extractSqftV1 card.text = some s := hs
    show extractRentPerSFV1 card.text (extractRentV1 card.text) (extractSqftV1 card.text) =
      some (jsToFixed2 (r / s * 12))
    rw [hr', hs']
    simp only [extractRentPerSFV1, hnone]
    simp [hr0, hs0]
  · intro m hm
    show extractRentPerSFV1 card.text (extractRentV1 card.text) (extractSqftV1 card.text) =
      jsParseFloat (capGet m 1)
    simp only [extractRentPerSFV1, hm]
  · intro hnone
    show extractRentPerSFV2 (optStr d.body) = none
    simp only [extractRentPerSFV2, hnone]
  · intro m hm
    show extractRentPerSFV2 (optStr d.body) = jsParseFloat (removeComma (capGet m 1))
    simp only [extractRentPerSFV2, hm]

/-- C4 counterexample: a detail page with rent 1200 and area 600 and no
stated rate yields `rentPerSF = null`, not the derived
`round(1200 / 600 * 12, 2) = 24` the claim requires. -/
theorem claim_C4_counterexample :
    (parseDetailPage docRent1200 (L (r"u1"))).rent = some 1200 ∧
    (parseDetailPage docRent1200 (L (r"u1"))).sqft = some 600 ∧
    (parseDetailPage docRent1200 (L (r"u1"))).rentPerSF = none ∧
    jsToFixed2 (1200 / 600 * 12) = 24 := by
  refine ⟨?_, ?_, rfl, ?_⟩ <;> with_unfolding_all rfl

/-- C4 witness: on the spec's card scenario (`$2,500`, `1,200 SF`, no
stated rate), the card parser derives `rentPerSF = 25`. -/
theorem claim_C4_witness :
    (extractListingData cardScenario (L (r"u1"))).rentPerSF =
      some (jsToFixed2 (2500 / 1200 * 12)) ∧
    jsToFixed2 (2500 / 1200 * 12) = 25 := by
  constructor
  · exact (claim_C4_rent_per_area cardScenario (L (r"u1")) docRent1200 (L (r"u2"))).1 rfl
      2500 1200 (by with_unfolding_all rfl) (by with_unfolding_all rfl)
      (by norm_num) (by norm_num)
  · with_unfolding_all rfl

/-- C5: the index parser emits each unique listing identifier exactly
once (no duplicates), the emitted identifiers are exactly those
extracted from the detail-link anchors, and they appear in first-seen
document order; the v1 parser likewise never produces two records with
the same identifier. -/
theorem claim_C5_dedup_first_seen :
    ∀ (d : IndexDoc) (res : IndexRes) (res1 : ParseV1Res),
    (parseIndexPage d = .ok res →
      res.uuids.Nodup ∧ (∀ u, u ∈ res.uuids ↔ u ∈ rawUUIDs d) ∧
      (∀ a b, List.Sublist [a, b] res.uuids →
        firstIdx a (rawUUIDs d) < firstIdx b (rawUUIDs d))) ∧
    (parseListings d = .ok res1 → (res1.listings.map (fun l => l.id)).Nodup) := by
  intro d res res1
  constructor
  · intro h
    have he := parseIndexPage_ok_uuids d res h
    refine ⟨he ▸ nodup_dedupFS _ _, ?_, ?_⟩
    · intro u
      rw [he, mem_dedupFS]
      simp
    · intro a b hab
      exact dedupFS_order _ _ _ _ (he ▸ hab)
  · intro h
    rcases parseListings_ok_listings d res1 h with h' | h'
    · rw [h']
      simp
    · rw [h']
      exact (goListingsV1_inv _ _).2

/-- C5 witness: with two anchors for identifier `abc` around one for
`def0`, the parser yields `[abc, def0]` — deduplicated, in first-seen
order. -/
theorem claim_C5_witness :
    (IndexRes.mk [L (r"abc"), L (r"def0")] false).uuids.Nodup ∧
    firstIdx (L (r"abc")) (rawUUIDs docDupAnchors) <
      firstIdx (L (r"def0")) (rawUUIDs docDupAnchors) := by
  have h := (claim_C5_dedup_first_seen docDupAnchors ⟨[L (r"abc"), L (r"def0")], false⟩
    ⟨[], false⟩).1 rfl
  exact ⟨h.1, h.2.2 _ _ (List.Sublist.refl _)⟩

/-- C6: every assembled record has a nonempty title, in both the card
parser and the detail-page parser (the fallback chain ends in the
synthesized `Listing ` + id-prefix string). -/
theorem claim_C6_title_nonempty :
    ∀ (card : Card) (uuid : List Char) (d : DetailDoc) (u2 : List Char),
    0 < (extractListingData card uuid).title.length ∧
    0 < (parseDetailPage d u2).title.length :=
  fun card uuid d u2 =>
    ⟨extractTitleV1_pos card (extractAddress card.text) uuid, extractTitleV2_pos d u2⟩

/-- C7: in both validator versions, a run is valid iff the error list
is empty, which holds iff the record count is at most 200 — so a
201-record set is rejected, a 200-record set is valid, and warnings
never affect validity. -/
theorem claim_C7_valid_iff_no_errors :
    ∀ (l1 : List ListingV1) (l2 : List ListingV2),
    ((V1.validateListings l1).valid = true ↔ (V1.validateListings l1).errors = []) ∧
    ((V1.validateListings l1).valid = true ↔ l1.length ≤ 200) ∧
    ((V2.validateListings l2).valid = true ↔ (V2.validateListings l2).errors = []) ∧
    ((V2.validateListings l2).valid = true ↔ l2.length ≤ 200) := by
  intro l1 l2
  refine ⟨?_, ?_, ?_, ?_⟩
  · by_cases hl : 200 < l1.length <;> simp [V1.validateListings, hl]
  · by_cases hl : 200 < l1.length <;> simp [V1.validateListings, hl] <;> omega
  · by_cases hl : 200 < l2.length <;> simp [V2.validateListings, hl]
  · by_cases hl : 200 < l2.length <;> simp [V2.validateListings, hl] <;> omega

/-- C8: in the v2 validator (the version carrying the missing-image
check), a record missing its address, rent and primary image — with its
square footage present and inside the sanity bound, and its identifier
unique in a set of at most 200 records — leaves the run valid and
yields exactly the three warnings attributable to that record: missing
address, missing rent, and no images. -/
theorem claim_C8_three_warnings :
    ∀ (listings : List ListingV2) (r : ListingV2) (s : ℚ),
    r ∈ listings → listings.count r = 1 →
    (∀ r' ∈ listings, r' ≠ r → eqStr r'.id r.id = false) →
    r.address = none → r.rent = none → r.imageUrl = none →
    r.sqft = some s → s ≠ 0 → s ≤ 1000000 →
    listings.length ≤ 200 →
    (V2.validateListings listings).valid = true ∧
    (V2.validateListings listings).warnings.filter (fun w => eqStr w.lid r.id) =
      [Warning.missingAddress r.id, Warning.missingRent r.id, Warning.noImages r.id] := by
  intro listings r s hmem hcnt huniq haddr hrent himg hsqft hs0 hsle hlen
  constructor
  · simp [V2.validateListings, Nat.not_lt.2 hlen]
  · have hw : (V2.validateListings listings).warnings =
        listings.flatMap V2.recWarnings1 ++ listings.flatMap V2.recWarnings2 := rfl
    rw [hw, List.filter_append]
    rw [filter_flatMap_of_unique V2.recWarnings1 lid_recWarnings1V2 listings r hmem hcnt huniq]
    rw [filter_flatMap_of_unique V2.recWarnings2 lid_recWarnings2V2 listings r hmem hcnt huniq]
    have h1 : V2.recWarnings1 r =
        [Warning.missingAddress r.id, Warning.missingRent r.id, Warning.noImages r.id] := by
      simp [V2.recWarnings1, haddr, hrent, himg, hsqft, truthyStr, truthyNum, hs0]
    have h2 : V2.recWarnings2 r = [] := by
      have hnl : ¬((1000000 : ℚ) < s) := not_lt.2 hsle
      simp [V2.recWarnings2, hrent, hsqft, hnl]
    rw [h1, h2]
    simp [Warning.lid, eqStr]

/-- C8 witness: the concrete record `recMissing` (address, rent and
primary image absent; square footage 800) validates with exactly its
three warnings. -/
theorem claim_C8_witness :
    (V2.validateListings [recMissing]).valid = true ∧
    (V2.validateListings [recMissing]).warnings.filter
      (fun w => eqStr w.lid recMissing.id) =
      [Warning.missingAddress recMissing.id, Warning.missingRent recMissing.id,
       Warning.noImages recMissing.id] :=
  claim_C8_three_warnings [recMissing] recMissing 800
    (List.mem_singleton_self _) (by simp)
    (by intro r' h hne; simp only [List.mem_singleton] at h; exact absurd h hne)
    rfl rfl rfl rfl (by norm_num) (by norm_num) (by simp)

/-- C9 (amended): the fingerprint is a deterministic function of the
serialized record set (equal serializations give equal fingerprints),
and the serialization itself is sensitive to a title change (for
escape-free titles); the hash, however, is not injective, so a
field-level change need not change the fingerprint. -/
theorem claim_C9_fingerprint :
    (∀ ls1 ls2 : List ListingV2, jsonListings ls1 = jsonListings ls2 →
      simpleFingerprint ls1 = simpleFingerprint ls2) ∧
    (∀ (l : ListingV2) (t : List Char), plainStr t = true → plainStr l.title = true →
      t ≠ l.title → jsonListing { l with title := t } ≠ jsonListing l) := by
  constructor
  · intro ls1 ls2 h
    show simpleHash (jsonListings ls1) = simpleHash (jsonListings ls2)
    rw [h]
  · exact jsonListing_title_ne

/-- C9 counterexample: the records `recHashA` and `recHashB` differ
only in the title (`Aa` versus `BB`), yet their singleton record sets
fingerprint identically — a single-field change that does not change
the fingerprint. -/
theorem claim_C9_counterexample :
    recHashB = { recHashA with title := L (r"BB") } ∧
    recHashA.title ≠ recHashB.title ∧
    simpleFingerprint [recHashA] = simpleFingerprint [recHashB] := by
  refine ⟨rfl, by decide, ?_⟩
  have hA : escStr (L (r"Aa")) = L (r"Aa") := by decide
  have hB : escStr (L (r"BB")) = L (r"BB") := by decide
  have h : ∀ z : ℤ, (escStr (L (r"Aa"))).foldl hashStep z =
      (escStr (L (r"BB"))).foldl hashStep z := by
    intro z
    rw [hA, hB]
    show hashStep (hashStep z 'A') 'a' = hashStep (hashStep z 'B') 'B'
    exact collision_pair z
  exact fingerprint_title_congr recHashA (L (r"Aa")) (L (r"BB")) h

/-- C9 witness: determinism at a concrete set, and serialization
sensitivity at the concrete title change `Aa` to `BB`. -/
theorem claim_C9_witness :
    simpleFingerprint [recMissing] = simpleFingerprint [recMissing] ∧
    jsonListing { recHashA with title := L (r"BB") } ≠ jsonListing recHashA := by
  obtain ⟨hdet, hsens⟩ := claim_C9_fingerprint
  exact ⟨hdet [recMissing] [recMissing] rfl,
    hsens recHashA (L (r"BB")) (by decide) (by decide) (by decide)⟩

/-- C10: both validators emit the missing-rent warning for an
identifier exactly when the set holds a record with that identifier
whose rent is absent (`null`/`NaN`, modelled `none`); a record whose
rent is exactly 0 produces no missing-rent warning. -/
theorem claim_C10_missing_rent_iff :
    ∀ (l2 : List ListingV2) (l1 : List ListingV1) (r : ListingV2) (i : List Char),
    (Warning.missingRent i ∈ (V2.validateListings l2).warnings ↔
      ∃ x ∈ l2, x.id = i ∧ x.rent = none) ∧
    (Warning.missingRent i ∈ (V1.validateListings l1).warnings ↔
      ∃ x ∈ l1, x.id = i ∧ x.rent = none) ∧
    (r.rent = some 0 → Warning.missingRent i ∉ (V2.validateListings [r]).warnings) := by
  intro l2 l1 r i
  refine ⟨missingRent_mem_warningsV2 l2 i, missingRent_mem_warningsV1 l1 i, ?_⟩
  intro h0 hmem
  obtain ⟨x, hx, _, hrent⟩ := (missingRent_mem_warningsV2 [r] i).1 hmem
  simp only [List.mem_singleton] at hx
  subst hx
  rw [h0] at hrent
  exact Option.noConfusion hrent

/-- C10 witness: a concrete record with rent exactly 0 yields no
missing-rent warning. -/
theorem claim_C10_witness :
    Warning.missingRent (L (r"i")) ∉
      (V2.validateListings [{ recHashA with rent := some 0 }]).warnings :=
  (claim_C10_missing_rent_iff [] [] { recHashA with rent := some 0 } (L (r"i"))).2.2 rfl
